import Mathlib

/-!
# dpdk_dump: capture writer, statistics sampler and shutdown sequence

A shallow embedding of `src/dpdk_dump.cpp` and `src/dpdk_dump.h`.

Conventions of the embedding

* A byte is a `Nat` below 256; a byte string is a `List Nat`.
* Machine integers are `Nat`/`Int`; a store into a `uint32_t` field reduces
  modulo `2^32`.
* The two packed structures (`#pragma pack(push,1)`) are laid out field after
  field in host byte order, which is little-endian on the x86 targets of DPDK.
* The methods of `DPDKPort` return the new object state together with the list
  of calls they issue to the C library and to the `dpdkpp` base class, in
  program order (`Event`).  What the environment answers (whether `fopen`
  creates the file, whether an `fwrite` stores its item, the wall clock) is an
  argument of the method.
* A read by `fwrite` of more bytes than can be read at the pointer is a memory
  fault: the process ends there, and the trace ends with `Event.fault`.
* A `double` or `long double` is the rational number it stands for.  Every
  conversion to and every operation in `double` rounds to the nearest number
  with 53 bits of significand, ties to even (`roundDouble`), as SSE2 arithmetic
  on x86-64 does; `long double` is the 80-bit format with 64 bits of
  significand (`roundLongDouble`).  The exponent is not bounded: the counters
  and timestamps of the program are 64-bit integers, which keeps every value of
  the computation far inside the range of both formats.
-/

namespace DpdkDump

/-! ## Constants of `dpdk_dump.h` and of the C library -/

/-- The macro `TCPDUMP_MAGIC`. -/
def TCPDUMP_MAGIC : Nat := 0xa1b2c3d4

/-- The macro `LINKTYPE_ETHERNET`. -/
def LINKTYPE_ETHERNET : Nat := 1

/-- The macro `USHRT_MAX` of `<climits>`. -/
def USHRT_MAX : Nat := 65535

/-! ## Machine integers and their bytes -/

/-- Store of an unsigned value into a `uint32_t`. -/
def u32 (v : Nat) : Nat := v % 4294967296

/-- Store of a signed value (`long`, `int`) into a 32-bit field: the two's
complement bit pattern, read as an unsigned number. -/
def u32OfInt (v : Int) : Nat := (v % 4294967296).toNat

/-- Difference of two `uint64_t` values, wrapping modulo `2^64`. -/
def u64sub (a b : Nat) : Nat :=
  (a % 18446744073709551616 + 18446744073709551616 - b % 18446744073709551616)
    % 18446744073709551616

/-- The two bytes of a 16-bit value, least significant first. -/
def le16 (v : Nat) : List Nat := [v % 256, v / 256 % 256]

/-- The four bytes of a 32-bit value, least significant first. -/
def le32 (v : Nat) : List Nat :=
  [v % 256, v / 256 % 256, v / 65536 % 256, v / 16777216 % 256]

/-- The unsigned value of a little-endian byte string. -/
def leVal : List Nat → Nat
  | [] => 0
  | b :: bs => b + 256 * leVal bs

/-- The signed value of a 32-bit pattern (two's complement). -/
def i32OfBits (v : Nat) : Int :=
  if v < 2147483648 then (v : Int) else (v : Int) - 4294967296

/-! ## Floating point -/

/-- Rounding of a rational number to the nearest integer, a tie going to the
even one. -/
def roundHalfEven (q : ℚ) : ℤ :=
  if q - (⌊q⌋ : ℚ) < 1 / 2 then ⌊q⌋
  else if 1 / 2 < q - (⌊q⌋ : ℚ) then ⌊q⌋ + 1
  else if ⌊q⌋ % 2 = 0 then ⌊q⌋ else ⌊q⌋ + 1

/-- Rounding to the nearest binary floating-point number with `prec` bits of
significand, ties to even: with `l` the binary exponent of `|x|`
(`2 ^ l ≤ |x| < 2 ^ (l + 1)`), the number is rounded to a multiple of
`2 ^ (l - (prec - 1))`. -/
def roundFloat (prec : Nat) (x : ℚ) : ℚ :=
  if x = 0 then 0
  else (roundHalfEven (x / (2 : ℚ) ^ (Int.log 2 |x| - ((prec : ℤ) - 1))) : ℚ)
        * (2 : ℚ) ^ (Int.log 2 |x| - ((prec : ℤ) - 1))

/-- Rounding to a `double`. -/
def roundDouble (x : ℚ) : ℚ := roundFloat 53 x

/-- Rounding to a `long double`. -/
def roundLongDouble (x : ℚ) : ℚ := roundFloat 64 x

/-! ## The structures of `dpdk_dump.h` -/

/-- The structure `PCAPFileHeader`. -/
structure PCAPFileHeader where
  magic : Nat
  version_major : Nat
  version_minor : Nat
  thiszone : Int
  sigfigs : Nat
  snaplen : Nat
  linktype : Nat
  deriving DecidableEq, Repr

/-- The structure `PCAPPacketHeader`. -/
structure PCAPPacketHeader where
  ts_sec : Nat
  ts_usec : Nat
  caplen : Nat
  len : Nat
  deriving DecidableEq, Repr

/-- The `sizeof(PCAPFileHeader)` bytes of the object, as `fwrite` reads them:
packed, in declaration order. -/
def PCAPFileHeader.bytes (h : PCAPFileHeader) : List Nat :=
  le32 h.magic ++ le16 h.version_major ++ le16 h.version_minor
    ++ le32 (u32OfInt h.thiszone) ++ le32 h.sigfigs ++ le32 h.snaplen ++ le32 h.linktype

/-- The `sizeof(PCAPPacketHeader)` bytes of the object, as `fwrite` reads
them: packed, in declaration order. -/
def PCAPPacketHeader.bytes (h : PCAPPacketHeader) : List Nat :=
  le32 h.ts_sec ++ le32 h.ts_usec ++ le32 h.caplen ++ le32 h.len

/-! ## Environment types -/

/-- The structure `timeval` of `<sys/time.h>`. -/
structure timeval where
  tv_sec : Int
  tv_usec : Int
  deriving DecidableEq, Repr

/-- The structure `timespec` of `<time.h>`. -/
structure timespec where
  tv_sec : Int
  tv_nsec : Int
  deriving DecidableEq, Repr

/-- The part of DPDK's `rte_mbuf` that `onReceive` reads.  `buf_addr` tells
handles apart.  `pkt_len` (a `uint32_t`) is the length of the whole frame,
`data_len` (a `uint16_t`) the number of bytes held by this segment.  `mem` is
the memory that can be read from `rte_pktmbuf_mtod(m, char*)` on: its first
`data_len` bytes are the segment's data, what follows is whatever lies behind
them in the buffer.  A read of more bytes than `mem` holds is a memory fault. -/
structure rte_mbuf where
  buf_addr : Nat
  pkt_len : Nat
  data_len : Nat
  mem : List Nat
  deriving DecidableEq, Repr

/-- The fields of the value types are in range and the segment's data lies in
readable memory. -/
def rte_mbuf.WellFormed (m : rte_mbuf) : Prop :=
  m.pkt_len < 4294967296 ∧ m.data_len < 65536 ∧ m.data_len ≤ m.mem.length

/-- The captured bytes of a frame: the `data_len` bytes of its segment. -/
def rte_mbuf.captured (m : rte_mbuf) : List Nat := m.mem.take m.data_len

/-- The counters of DPDK's `rte_eth_stats` that the statistics line shows. -/
structure rte_eth_stats where
  ipackets : Nat
  ibytes : Nat
  ierrors : Nat
  deriving DecidableEq, Repr

/-- The handle `FILE*` of an open stream, named by the path it was opened on. -/
structure FILE where
  path : String
  deriving DecidableEq, Repr

/-- A call that leaves the program, with what the environment answered. -/
inductive Event where
  /-- The call `fopen(path, "w")` and whether it returned a stream. -/
  | fopen (path : String) (ok : Bool)
  /-- One `fwrite(ptr, size, 1, file_)` with the `size` bytes at `ptr`, and
  whether the stream stored the item. -/
  | fwrite (bytes : List Nat) (ok : Bool)
  /-- The call `fflush(file_)`. -/
  | fflush
  /-- The call `fclose(file_)`. -/
  | fclose
  /-- The call `releasePacketsBulk(packets, packets_count)` of `dpdkpp::Port`. -/
  | releasePacketsBulk (packets : List rte_mbuf)
  /-- The call `port.start()` of `dpdkpp::Port`. -/
  | portStart
  /-- The call `port.stop()` of `dpdkpp::Port`. -/
  | portStop
  /-- The call `port.shutdown()` of `dpdkpp::Port`. -/
  | portShutdown
  /-- The call `stats_activity_.start()`. -/
  | statsStart
  /-- The call `stats_activity_.stop()`. -/
  | statsStop
  /-- The end of the process by a memory fault: a read past the memory that can
  be read.  No call follows it. -/
  | fault
  deriving DecidableEq, Repr

/-! ## The application -/

/-- The member of `AppConfig` that the capture writer reads. -/
structure AppConfig where
  out_file_path : String
  deriving DecidableEq, Repr

/-- The data members of the class `DPDKPort`. -/
structure DPDKPort where
  config_ : AppConfig
  file_ : Option FILE
  stats_bytes_received_last_meansure_ : Nat
  stats_bytes_received_last_meansure_time_ : timespec
  deriving DecidableEq, Repr

/-- The C library's `fopen(path, "w")`: no stream for the empty path (there is
no such file to create), otherwise the environment decides. -/
def fopen (creatable : Bool) (path : String) : Option FILE :=
  if path.isEmpty then none else if creatable then some { path := path } else none

/-- The file header that `openDump` fills in. -/
def dumpFileHeader : PCAPFileHeader :=
  { magic := TCPDUMP_MAGIC
    sigfigs := 0
    version_major := 2
    version_minor := 4
    snaplen := USHRT_MAX
    thiszone := 0
    linktype := LINKTYPE_ETHERNET }

/-- The method `DPDKPort::openDump`.  `creatable` is the environment's answer to
`fopen`, `stored` its answer to the `fwrite` of the header (the method does not
look at the latter). -/
def openDump (creatable stored : Bool) (self : DPDKPort) : Bool × DPDKPort × List Event :=
  match fopen creatable self.config_.out_file_path with
  | none =>
    (false, { self with file_ := none }, [Event.fopen self.config_.out_file_path false])
  | some f =>
    let header := dumpFileHeader
    (true, { self with file_ := some f },
      [Event.fopen self.config_.out_file_path true, Event.fwrite header.bytes stored,
        Event.fflush])

/-- The method `DPDKPort::closeDump`. -/
def closeDump (self : DPDKPort) : DPDKPort × List Event :=
  match self.file_ with
  | some _ => ({ self with file_ := none }, [Event.fclose])
  | none => (self, [])

/-- The packet header that the loop body of `onReceive` fills in for one
packet. -/
def packetHeader (ts : timeval) (m : rte_mbuf) : PCAPPacketHeader :=
  { len := u32 m.pkt_len
    caplen := u32 m.data_len
    ts_sec := u32OfInt ts.tv_sec
    ts_usec := u32OfInt ts.tv_usec }

/-- Whether a trace ends the process by a memory fault. -/
def faulted : List Event → Bool
  | [] => false
  | Event.fault :: _ => true
  | _ :: es => faulted es

/-- The body of the loop of `onReceive` for one packet: the header is written,
then `header.len` bytes from the packet's data pointer, then the stream is
flushed.  When fewer than `header.len` bytes can be read at the data pointer,
the second `fwrite` faults: the process ends after the write of the header,
with no flush.  `k` is the number of `fwrite` calls made before in this
invocation and `stored` the environment's answer to each. -/
def writePacket (ts : timeval) (stored : Nat → Bool) (k : Nat) (m : rte_mbuf) : List Event :=
  let header := packetHeader ts m
  if header.len ≤ m.mem.length then
    [Event.fwrite header.bytes (stored k), Event.fwrite (m.mem.take header.len) (stored (k + 1)),
      Event.fflush]
  else [Event.fwrite header.bytes (stored k), Event.fault]

/-- The loop `for (i = 0; i < packets_count; i++)` of `onReceive`; a fault ends
it. -/
def writePackets (ts : timeval) (stored : Nat → Bool) : Nat → List rte_mbuf → List Event
  | _, [] => []
  | k, m :: ms =>
    if faulted (writePacket ts stored k m) then writePacket ts stored k m
    else writePacket ts stored k m ++ writePackets ts stored (k + 2) ms

/-- The method `DPDKPort::onReceive`.  The list `packets` stands for the array
`packets[]` with its length `packets_count`; `ts` is what `gettimeofday`
returns; `stored` tells for each `fwrite` of the invocation whether the stream
stored the item (the method does not look at it).  The arguments `port_id`,
`queue_id` and `max_packets` are not used by the method and are left out.  When
the loop faults, the process ends there and the burst is not released. -/
def onReceive (ts : timeval) (stored : Nat → Bool) (self : DPDKPort) (packets : List rte_mbuf) :
    DPDKPort × List Event :=
  match self.file_ with
  | some _ =>
    if faulted (writePackets ts stored 0 packets) then (self, writePackets ts stored 0 packets)
    else (self, writePackets ts stored 0 packets ++ [Event.releasePacketsBulk packets])
  | none => (self, [Event.releasePacketsBulk packets])

/-- One invocation of `onReceive`, as the environment shapes it: the clock, the
answers to the `fwrite` calls, and the burst. -/
structure Burst where
  ts : timeval
  stored : Nat → Bool
  packets : List rte_mbuf

/-- Successive invocations of `onReceive`, one per burst, on the same object;
a fault ends them. -/
def receiveAll (self : DPDKPort) : List Burst → DPDKPort × List Event
  | [] => (self, [])
  | b :: bs =>
    let r := onReceive b.ts b.stored self b.packets
    if faulted r.2 then r
    else
      let r2 := receiveAll r.1 bs
      (r2.1, r.2 ++ r2.2)

/-! ### The statistics activity -/

/-- What one line printed by the statistics activity shows. -/
structure StatsLine where
  link : Bool
  rx_rate : ℚ
  rx_rate_name : String
  ipackets : Nat
  ibytes : Nat
  ierrors : Nat
  deriving DecidableEq

/-- The local `time_elapsed` of `__statsActivity__`, a `double`: the difference
of the seconds (a `long`, converted to `double`) plus the difference of the
nanoseconds (a `long`, converted to `double`) over `1000000000.`, the quotient
and the sum each rounded to `double`. -/
def time_elapsed (current_timestamp last : timespec) : ℚ :=
  roundDouble
    (roundDouble ((current_timestamp.tv_sec - last.tv_sec : Int) : ℚ)
      + roundDouble
          (roundDouble ((current_timestamp.tv_nsec - last.tv_nsec : Int) : ℚ) / 1000000000))

/-- The initial value of the local `rx_rate` of `__statsActivity__`, in bits per
second: the difference of the byte counters (a `uint64_t`, converted to
`double`) over `time_elapsed`, the quotient a `double`, times 8 in `double`;
the conversion of the product to `long double` keeps its value. -/
def rxRate (ibytes last : Nat) (elapsed : ℚ) : ℚ :=
  roundDouble (roundDouble (roundDouble ((u64sub ibytes last : Nat) : ℚ) / elapsed) * 8)

/-- The chain of comparisons of `__statsActivity__` that picks `rx_rate_name`
and `rx_rate_divider`. -/
def rateScale (rx_rate : ℚ) : String × Nat :=
  if rx_rate < 1024 then ("bit", 1)
  else if rx_rate < 1024 * 1024 then ("Kbit", 1024)
  else if rx_rate < 1024 * 1024 * 1024 then ("Mbit", 1024 * 1024)
  else ("Gbit", 1024 * 1024 * 1024)

/-- One turn of the loop of `DPDKPort::__statsActivity__`, between the
cancellation point and the `sleep(1)`.  The comparisons of `rx_rate` with the
thresholds and the test of `time_elapsed` are exact; the division of `rx_rate`
by `rx_rate_divider` is one in `long double`.  `current_timestamp` is what
`clock_gettime` returns, `nic_stats` what `getStats()` returns and `link` what
`getLinkStatus()` returns.  The result is the object with its two baseline
members stored, and the line printed, if one is. -/
def statsActivity (current_timestamp : timespec) (nic_stats : rte_eth_stats) (link : Bool)
    (self : DPDKPort) : DPDKPort × Option StatsLine :=
  let elapsed := time_elapsed current_timestamp self.stats_bytes_received_last_meansure_time_
  let line : Option StatsLine :=
    if elapsed ≠ 0 then
      let rx_rate := rxRate nic_stats.ibytes self.stats_bytes_received_last_meansure_ elapsed
      let scale := rateScale rx_rate
      some { link := link
             rx_rate := roundLongDouble (rx_rate / (scale.2 : ℚ))
             rx_rate_name := scale.1
             ipackets := nic_stats.ipackets
             ibytes := nic_stats.ibytes
             ierrors := nic_stats.ierrors }
    else none
  ({ self with
      stats_bytes_received_last_meansure_ := nic_stats.ibytes
      stats_bytes_received_last_meansure_time_ := current_timestamp }, line)

/-! ### The entry point -/

/-- The statements of `main` that follow the receive loop: `port.stopStats()`,
`port.stop()`, `port.closeDump()`, `port.shutdown()`. -/
def teardown (port : DPDKPort) : DPDKPort × List Event :=
  let c := closeDump port
  (c.1, [Event.statsStop] ++ [Event.portStop] ++ c.2 ++ [Event.portShutdown])

/-- The constructor of `DPDKPort`: it sets `file_` to the null pointer and
leaves the two baseline members of the statistics without an initial value
(`bytes0`, `time0`). -/
def constructPort (config : AppConfig) (bytes0 : Nat) (time0 : timespec) : DPDKPort :=
  { config_ := config
    file_ := none
    stats_bytes_received_last_meansure_ := bytes0
    stats_bytes_received_last_meansure_time_ := time0 }

/-- The function `main` from the construction of the port on: `openDump`,
`start`, `startStats`, the receive loop, and the statements after it.  `bursts`
are the invocations of `onReceive` that `port.receive(0)` makes until the
running flag is cleared.  When one of them faults the process ends there, and
the statements after the loop are not reached. -/
def mainRun (config : AppConfig) (bytes0 : Nat) (time0 : timespec) (creatable stored : Bool)
    (bursts : List Burst) : DPDKPort × List Event :=
  let port := constructPort config bytes0 time0
  let o := openDump creatable stored port
  let r := receiveAll o.2.1 bursts
  if faulted r.2 then (r.1, o.2.2 ++ [Event.portStart] ++ [Event.statsStart] ++ r.2)
  else
    let t := teardown r.1
    (t.1, o.2.2 ++ [Event.portStart] ++ [Event.statsStart] ++ r.2 ++ t.2)

/-! ## The capture file, as a reader sees it -/

/-- The effect of one call on the content of the capture file: a successful
`fopen` in mode `"w"` leaves it empty, an `fwrite` that stores its item appends
the bytes. -/
def fileStep (content : List Nat) : Event → List Nat
  | Event.fopen _ true => []
  | Event.fwrite bytes true => content ++ bytes
  | _ => content

/-- The content of the capture file after a sequence of calls that ends with
the stream flushed. -/
def fileContent (es : List Event) : List Nat := es.foldl fileStep []

/-- The byte strings handed to `fwrite`, in order. -/
def fwrites : List Event → List (List Nat)
  | [] => []
  | Event.fwrite bytes _ :: es => bytes :: fwrites es
  | _ :: es => fwrites es

/-- The number of `fflush` calls. -/
def flushes : List Event → Nat
  | [] => 0
  | Event.fflush :: es => flushes es + 1
  | _ :: es => flushes es

/-- The handles given back to the pool, in order, over all release calls. -/
def released : List Event → List rte_mbuf
  | [] => []
  | Event.releasePacketsBulk packets :: es => packets ++ released es
  | _ :: es => released es

/-- Reading a global header of the capture format: 24 bytes, the fields in the
order magic (u32), version major (u16), version minor (u16), timezone offset
(i32), accuracy (u32), maximal snapshot length (u32), link-layer type (u32). -/
def decodeFileHeader (bs : List Nat) : Option PCAPFileHeader :=
  if bs.length = 24 then
    some { magic := leVal (bs.take 4)
           version_major := leVal ((bs.drop 4).take 2)
           version_minor := leVal ((bs.drop 6).take 2)
           thiszone := i32OfBits (leVal ((bs.drop 8).take 4))
           sigfigs := leVal ((bs.drop 12).take 4)
           snaplen := leVal ((bs.drop 16).take 4)
           linktype := leVal ((bs.drop 20).take 4) }
  else none

/-- Reading a record header of the capture format: 16 bytes, the fields in the
order seconds, microseconds, captured length, original length (u32 each). -/
def decodePacketHeader (bs : List Nat) : Option PCAPPacketHeader :=
  if bs.length = 16 then
    some { ts_sec := leVal (bs.take 4)
           ts_usec := leVal ((bs.drop 4).take 4)
           caplen := leVal ((bs.drop 8).take 4)
           len := leVal ((bs.drop 12).take 4) }
  else none

/-- A record of the capture file: its header and its payload. -/
structure Record where
  header : PCAPPacketHeader
  payload : List Nat
  deriving DecidableEq, Repr

/-- Reading the records of a capture file: each is a 16-byte header followed by
`caplen` payload bytes; bytes that are left over and do not make up a record
are an error.  Every record takes at least 16 bytes, so a fuel of the number of
bytes is enough. -/
def parseRecords : Nat → List Nat → Option (List Record)
  | _, [] => some []
  | 0, _ :: _ => none
  | fuel + 1, b :: bs =>
    match decodePacketHeader ((b :: bs).take 16) with
    | none => none
    | some h =>
      if h.caplen ≤ ((b :: bs).drop 16).length then
        (parseRecords fuel ((b :: bs).drop (16 + h.caplen))).map
          (fun rs => { header := h, payload := ((b :: bs).drop 16).take h.caplen } :: rs)
      else none

/-- Reading a capture file: the global header, then the records to the end. -/
def parseCapture (bs : List Nat) : Option (PCAPFileHeader × List Record) :=
  match decodeFileHeader (bs.take 24) with
  | none => none
  | some h => (parseRecords bs.length (bs.drop 24)).map (fun rs => (h, rs))

/-- What a reader reports of a record: the captured bytes, the captured length
and the original length. -/
def Record.triple (r : Record) : List Nat × Nat × Nat :=
  (r.payload, r.header.caplen, r.header.len)

/-- What the capture of a frame is to show: its captured bytes, its captured
length and its total length. -/
def rte_mbuf.triple (m : rte_mbuf) : List Nat × Nat × Nat :=
  (m.captured, m.data_len, m.pkt_len)

/-- The frames of a sequence of bursts, in receive order. -/
def framesOf : List Burst → List rte_mbuf
  | [] => []
  | b :: bs => b.packets ++ framesOf bs

/-- The byte strings that the loop of `onReceive` hands to `fwrite` for a burst:
for each packet its header, then `header.len` bytes from its data pointer; at
the first packet with fewer bytes to read than `header.len`, its header and no
more. -/
def recordWrites (ts : timeval) : List rte_mbuf → List (List Nat)
  | [] => []
  | m :: ms =>
    if (packetHeader ts m).len ≤ m.mem.length then
      (packetHeader ts m).bytes :: m.mem.take (packetHeader ts m).len :: recordWrites ts ms
    else [(packetHeader ts m).bytes]

/-- Whether every packet of a burst has `header.len` bytes to read at its data
pointer. -/
def readable (packets : List rte_mbuf) : Bool :=
  packets.all fun m => decide (u32 m.pkt_len ≤ m.mem.length)

/-- The calls of `onReceive` with their arguments left out: 0 for an `fwrite`,
1 for an `fflush`, 3 for a fault, 2 for any other call. -/
def Event.kind : Event → Nat
  | Event.fwrite _ _ => 0
  | Event.fflush => 1
  | Event.fault => 3
  | _ => 2

/-- The records that the loop of `onReceive` writes for a burst, one per
packet, in order: the header it fills in and the bytes it writes after it. -/
def burstRecords (ts : timeval) (packets : List rte_mbuf) : List Record :=
  packets.map fun m =>
    { header := packetHeader ts m, payload := m.mem.take (packetHeader ts m).len }

/-- The byte strings handed to `fwrite` over a sequence of bursts, up to the
first burst with a packet that cannot be read in full. -/
def burstWrites : List Burst → List (List Nat)
  | [] => []
  | b :: bs =>
    if readable b.packets then recordWrites b.ts b.packets ++ burstWrites bs
    else recordWrites b.ts b.packets

/-- The seconds elapsed between two timestamps, as an exact number. -/
def elapsedSeconds (current_timestamp last : timespec) : ℚ :=
  ((current_timestamp.tv_sec - last.tv_sec : Int) : ℚ)
    + ((current_timestamp.tv_nsec - last.tv_nsec : Int) : ℚ) / 1000000000

/-- The rate as the specification words it: the bytes counted since the last
sample over the seconds elapsed, times 8. -/
def specRate (current_bytes previous_bytes : Nat) (elapsed_seconds : ℚ) : ℚ :=
  ((current_bytes : ℚ) - (previous_bytes : ℚ)) / elapsed_seconds * 8

/-- A port whose statistics baseline is `bytes = 0` at `t = 0`. -/
def baselinePort : DPDKPort :=
  { config_ := { out_file_path := "" }
    file_ := none
    stats_bytes_received_last_meansure_ := 0
    stats_bytes_received_last_meansure_time_ := { tv_sec := 0, tv_nsec := 0 } }

/-- The counters at the sample `bytes = 131072`. -/
def sampleStats : rte_eth_stats := { ipackets := 128, ibytes := 131072, ierrors := 0 }

/-- The counters at a sample `bytes = 262144`. -/
def twoSecondStats : rte_eth_stats := { ipackets := 256, ibytes := 262144, ierrors := 0 }

/-- The counters at a sample `bytes = 2 ^ 31`. -/
def roundingStats : rte_eth_stats := { ipackets := 2097152, ibytes := 2147483648, ierrors := 0 }

/-- The bytes of a sequence of records in a capture file. -/
def recordsBytes : List Record → List Nat
  | [] => []
  | r :: rs => r.header.bytes ++ r.payload ++ recordsBytes rs

/-- The records written over a sequence of bursts. -/
def allRecords : List Burst → List Record
  | [] => []
  | b :: bs => burstRecords b.ts b.packets ++ allRecords bs

/-- A record as the capture format wants it: header fields of 32 bits and a
payload of `caplen` bytes. -/
def Record.WellFormed (r : Record) : Prop :=
  r.header.ts_sec < 4294967296 ∧ r.header.ts_usec < 4294967296
    ∧ r.header.caplen < 4294967296 ∧ r.header.len < 4294967296
    ∧ r.payload.length = r.header.caplen

/-- The calls that `main` makes after the receive loop. -/
def Event.isTeardown : Event → Bool
  | Event.statsStop => true
  | Event.portStop => true
  | Event.fclose => true
  | Event.portShutdown => true
  | _ => false

/-- A port whose capture file is open. -/
def openPort : DPDKPort :=
  { config_ := { out_file_path := "dump.pcap" }
    file_ := some { path := "dump.pcap" }
    stats_bytes_received_last_meansure_ := 0
    stats_bytes_received_last_meansure_time_ := { tv_sec := 0, tv_nsec := 0 } }

/-- A port as the constructor leaves it, with an output path configured. -/
def newPort : DPDKPort := { openPort with file_ := none }

/-- A clock reading. -/
def ts0 : timeval := { tv_sec := 1467200000, tv_usec := 250000 }

/-- A frame whose first segment holds 2 of its 4 bytes; the bytes `0xCC`,
`0xDD` lie behind the segment's data in the buffer. -/
def shortFrame : rte_mbuf :=
  { buf_addr := 4096, pkt_len := 4, data_len := 2, mem := [0xAA, 0xBB, 0xCC, 0xDD] }

/-- A frame of 6 bytes whose segment holds 4, with no byte to read behind
them. -/
def overlongFrame : rte_mbuf :=
  { buf_addr := 12288, pkt_len := 6, data_len := 4, mem := [1, 2, 3, 4] }

/-- A frame held whole by its segment. -/
def wholeFrame : rte_mbuf :=
  { buf_addr := 8192, pkt_len := 3, data_len := 3, mem := [1, 2, 3, 0, 0] }

/-- An environment in which every `fwrite` stores its item. -/
def allStored : Nat → Bool := fun _ => true

/-- The run of `main` with the output path `dump.pcap`, a file that can be
created, a stream that stores every item, and one burst of two frames. -/
def sampleRun : DPDKPort × List Event :=
  mainRun { out_file_path := "dump.pcap" } 0 { tv_sec := 0, tv_nsec := 0 } true true
    [{ ts := ts0, stored := allStored, packets := [wholeFrame, wholeFrame] }]

/-! ## Lemmas on traces -/

theorem fwrites_append (a b : List Event) : fwrites (a ++ b) = fwrites a ++ fwrites b := by
  induction a with
  | nil => rfl
  | cons e es ih => cases e <;> simp [fwrites, ih]

theorem flushes_append (a b : List Event) : flushes (a ++ b) = flushes a + flushes b := by
  induction a with
  | nil => simp [flushes]
  | cons e es ih =>
    cases e <;> simp [flushes, ih]
    omega

theorem faulted_append (a b : List Event) : faulted (a ++ b) = (faulted a || faulted b) := by
  induction a with
  | nil => simp [faulted]
  | cons e es ih => cases e <;> simp [faulted, ih]

theorem readable_iff (packets : List rte_mbuf) :
    readable packets = true ↔ ∀ m ∈ packets, u32 m.pkt_len ≤ m.mem.length := by
  simp [readable]

theorem readable_cons (m : rte_mbuf) (ms : List rte_mbuf) :
    readable (m :: ms) = (decide (u32 m.pkt_len ≤ m.mem.length) && readable ms) := by
  simp [readable]

/-- The calls for a packet that can be read in full. -/
theorem writePacket_of_readable (ts : timeval) (stored : Nat → Bool) (k : Nat) (m : rte_mbuf)
    (h : u32 m.pkt_len ≤ m.mem.length) :
    writePacket ts stored k m
      = [Event.fwrite (packetHeader ts m).bytes (stored k),
          Event.fwrite (m.mem.take (packetHeader ts m).len) (stored (k + 1)), Event.fflush] := by
  have h2 : (packetHeader ts m).len ≤ m.mem.length := h
  simp [writePacket, h2]

/-- The calls for a packet that cannot be read in full: the header is written
and the process ends. -/
theorem writePacket_of_not_readable (ts : timeval) (stored : Nat → Bool) (k : Nat)
    (m : rte_mbuf) (h : ¬ u32 m.pkt_len ≤ m.mem.length) :
    writePacket ts stored k m = [Event.fwrite (packetHeader ts m).bytes (stored k), Event.fault] := by
  have h2 : ¬ (packetHeader ts m).len ≤ m.mem.length := h
  simp [writePacket, h2]

theorem writePackets_cons_of_readable (ts : timeval) (stored : Nat → Bool) (k : Nat)
    (m : rte_mbuf) (ms : List rte_mbuf) (h : u32 m.pkt_len ≤ m.mem.length) :
    writePackets ts stored k (m :: ms)
      = [Event.fwrite (packetHeader ts m).bytes (stored k),
          Event.fwrite (m.mem.take (packetHeader ts m).len) (stored (k + 1)), Event.fflush]
        ++ writePackets ts stored (k + 2) ms := by
  simp [writePackets, writePacket_of_readable ts stored k m h, faulted]

theorem writePackets_cons_of_not_readable (ts : timeval) (stored : Nat → Bool) (k : Nat)
    (m : rte_mbuf) (ms : List rte_mbuf) (h : ¬ u32 m.pkt_len ≤ m.mem.length) :
    writePackets ts stored k (m :: ms)
      = [Event.fwrite (packetHeader ts m).bytes (stored k), Event.fault] := by
  simp [writePackets, writePacket_of_not_readable ts stored k m h, faulted]

theorem faulted_writePackets (ts : timeval) (stored : Nat → Bool) (k : Nat)
    (packets : List rte_mbuf) :
    faulted (writePackets ts stored k packets) = !readable packets := by
  induction packets generalizing k with
  | nil => rfl
  | cons m ms ih =>
    by_cases h : u32 m.pkt_len ≤ m.mem.length
    · rw [writePackets_cons_of_readable ts stored k m ms h, readable_cons]
      simp [faulted, ih, h]
    · rw [writePackets_cons_of_not_readable ts stored k m ms h, readable_cons]
      simp [faulted, h]

theorem fwrites_writePackets (ts : timeval) (stored : Nat → Bool) (k : Nat)
    (packets : List rte_mbuf) :
    fwrites (writePackets ts stored k packets) = recordWrites ts packets := by
  induction packets generalizing k with
  | nil => rfl
  | cons m ms ih =>
    by_cases h : u32 m.pkt_len ≤ m.mem.length
    · have h2 : (packetHeader ts m).len ≤ m.mem.length := h
      rw [writePackets_cons_of_readable ts stored k m ms h]
      simp [fwrites, recordWrites, ih, h2]
    · have h2 : ¬ (packetHeader ts m).len ≤ m.mem.length := h
      rw [writePackets_cons_of_not_readable ts stored k m ms h]
      simp [fwrites, recordWrites, h2]

theorem flushes_writePackets (ts : timeval) (stored : Nat → Bool) (k : Nat)
    (packets : List rte_mbuf) (hin : ∀ m ∈ packets, u32 m.pkt_len ≤ m.mem.length) :
    flushes (writePackets ts stored k packets) = packets.length := by
  induction packets generalizing k with
  | nil => rfl
  | cons m ms ih =>
    rw [writePackets_cons_of_readable ts stored k m ms (hin m (List.mem_cons_self _ _))]
    simp [flushes, ih (k + 2) (fun x hx => hin x (List.mem_cons_of_mem _ hx))]

/-- The kinds of the calls of the loop: write, write, flush for each packet. -/
theorem kind_writePackets (ts : timeval) (stored : Nat → Bool) (k : Nat)
    (packets : List rte_mbuf) (hin : ∀ m ∈ packets, u32 m.pkt_len ≤ m.mem.length) :
    (writePackets ts stored k packets).map Event.kind
      = (List.replicate packets.length [0, 0, 1]).flatten := by
  induction packets generalizing k with
  | nil => rfl
  | cons m ms ih =>
    rw [writePackets_cons_of_readable ts stored k m ms (hin m (List.mem_cons_self _ _))]
    simp [Event.kind, ih (k + 2) (fun x hx => hin x (List.mem_cons_of_mem _ hx)),
      List.replicate_succ]

theorem onReceive_self (ts : timeval) (stored : Nat → Bool) (self : DPDKPort)
    (packets : List rte_mbuf) : (onReceive ts stored self packets).1 = self := by
  unfold onReceive
  cases self.file_ with
  | none => rfl
  | some f => by_cases h : faulted (writePackets ts stored 0 packets) = true <;> simp [h]

/-- The calls of `onReceive` while a file is open and every packet can be
read in full. -/
theorem onReceive_of_readable (ts : timeval) (stored : Nat → Bool) (self : DPDKPort)
    (packets : List rte_mbuf) (hopen : self.file_.isSome = true)
    (hin : ∀ m ∈ packets, u32 m.pkt_len ≤ m.mem.length) :
    (onReceive ts stored self packets).2
      = writePackets ts stored 0 packets ++ [Event.releasePacketsBulk packets] := by
  have hf : faulted (writePackets ts stored 0 packets) = false := by
    rw [faulted_writePackets, (readable_iff packets).mpr hin]
    rfl
  unfold onReceive
  cases hfile : self.file_ with
  | none => simp [hfile] at hopen
  | some f => simp [hf]

/-- The calls of `onReceive` while a file is open and some packet cannot be
read in full: the loop up to the fault, and no release. -/
theorem onReceive_of_not_readable (ts : timeval) (stored : Nat → Bool) (self : DPDKPort)
    (packets : List rte_mbuf) (hopen : self.file_.isSome = true)
    (hin : readable packets = false) :
    (onReceive ts stored self packets).2 = writePackets ts stored 0 packets := by
  have hf : faulted (writePackets ts stored 0 packets) = true := by
    rw [faulted_writePackets, hin]
    rfl
  unfold onReceive
  cases hfile : self.file_ with
  | none => simp [hfile] at hopen
  | some f => simp [hf]

theorem faulted_onReceive_open (ts : timeval) (stored : Nat → Bool) (self : DPDKPort)
    (packets : List rte_mbuf) (hopen : self.file_.isSome = true) :
    faulted (onReceive ts stored self packets).2 = !readable packets := by
  cases hr : readable packets with
  | true =>
    rw [onReceive_of_readable ts stored self packets hopen ((readable_iff packets).mp hr),
      faulted_append, faulted_writePackets, hr]
    rfl
  | false =>
    rw [onReceive_of_not_readable ts stored self packets hopen hr, faulted_writePackets, hr]

theorem faulted_onReceive_closed (ts : timeval) (stored : Nat → Bool) (self : DPDKPort)
    (packets : List rte_mbuf) (hclosed : self.file_ = none) :
    faulted (onReceive ts stored self packets).2 = false := by
  unfold onReceive
  rw [hclosed]
  rfl

theorem fwrites_onReceive_open (ts : timeval) (stored : Nat → Bool) (self : DPDKPort)
    (packets : List rte_mbuf) (hopen : self.file_.isSome = true) :
    fwrites (onReceive ts stored self packets).2 = recordWrites ts packets := by
  cases hr : readable packets with
  | true =>
    rw [onReceive_of_readable ts stored self packets hopen ((readable_iff packets).mp hr),
      fwrites_append, fwrites_writePackets]
    simp [fwrites]
  | false =>
    rw [onReceive_of_not_readable ts stored self packets hopen hr, fwrites_writePackets]

theorem receiveAll_self (self : DPDKPort) (bursts : List Burst) :
    (receiveAll self bursts).1 = self := by
  induction bursts generalizing self with
  | nil => rfl
  | cons b bs ih =>
    simp only [receiveAll]
    split
    · exact onReceive_self _ _ _ _
    · simp [ih, onReceive_self]

theorem receiveAll_cons (self : DPDKPort) (b : Burst) (bs : List Burst) :
    (receiveAll self (b :: bs)).2
      = if faulted (onReceive b.ts b.stored self b.packets).2 then
          (onReceive b.ts b.stored self b.packets).2
        else (onReceive b.ts b.stored self b.packets).2 ++ (receiveAll self bs).2 := by
  simp only [receiveAll]
  split <;> simp [onReceive_self]

theorem fwrites_receiveAll_open (self : DPDKPort) (bursts : List Burst)
    (hopen : self.file_.isSome = true) :
    fwrites (receiveAll self bursts).2 = burstWrites bursts := by
  induction bursts with
  | nil => rfl
  | cons b bs ih =>
    rw [receiveAll_cons, faulted_onReceive_open _ _ _ _ hopen]
    cases hr : readable b.packets with
    | true =>
      simp only [burstWrites, hr, Bool.not_true, if_true, Bool.false_eq_true, if_false]
      rw [fwrites_append, ih, fwrites_onReceive_open b.ts b.stored self b.packets hopen]
    | false =>
      simp only [burstWrites, hr, Bool.not_false, if_true,
        fwrites_onReceive_open b.ts b.stored self b.packets hopen]
      simp

theorem leVal_le32 (v : Nat) (h : v < 4294967296) : leVal (le32 v) = v := by
  simp only [le32, leVal]
  omega

theorem u32_lt (v : Nat) : u32 v < 4294967296 := by
  unfold u32
  omega

theorem u32OfInt_lt (v : Int) : u32OfInt v < 4294967296 := by
  unfold u32OfInt
  omega

theorem packetHeader_bytes_length (h : PCAPPacketHeader) : h.bytes.length = 16 := rfl

/-- A packet header read back from its 16 bytes is the header written, when its
fields fit 32 bits. -/
theorem decodePacketHeader_bytes (h : PCAPPacketHeader) (h1 : h.ts_sec < 4294967296)
    (h2 : h.ts_usec < 4294967296) (h3 : h.caplen < 4294967296) (h4 : h.len < 4294967296) :
    decodePacketHeader h.bytes = some h := by
  have e1 := leVal_le32 h.ts_sec h1
  have e2 := leVal_le32 h.ts_usec h2
  have e3 := leVal_le32 h.caplen h3
  have e4 := leVal_le32 h.len h4
  simp only [le32] at e1 e2 e3 e4
  simp [decodePacketHeader, PCAPPacketHeader.bytes, le32, e1, e2, e3, e4]

/-- C1. Whenever `openDump` succeeds, it opens the file and hands exactly one
item to `fwrite`: 24 bytes, which are `d4 c3 b2 a1 | 02 00 | 04 00 | 00 00 00 00
| 00 00 00 00 | ff ff 00 00 | 01 00 00 00` and read back, field after field and
without padding, as magic `0xa1b2c3d4`, version 2.4, zone 0, accuracy 0,
snapshot length 65535 and link type 1.  When the stream stores the item these
24 bytes are the whole content of the fresh file, and over any further bursts
the sequence of `fwrite` calls is this header, once and first, followed by the
writes of the per-frame records only. -/
theorem C1_openDump_file_header (creatable stored : Bool) (self : DPDKPort)
    (h : (openDump creatable stored self).1 = true) :
    ∃ bytes : List Nat,
      (openDump creatable stored self).2.2
          = [Event.fopen self.config_.out_file_path true, Event.fwrite bytes stored,
              Event.fflush]
      ∧ bytes = [0xd4, 0xc3, 0xb2, 0xa1, 0x02, 0x00, 0x04, 0x00, 0, 0, 0, 0, 0, 0, 0, 0,
                  0xff, 0xff, 0, 0, 1, 0, 0, 0]
      ∧ bytes.length = 24
      ∧ decodeFileHeader bytes
          = some { magic := 0xa1b2c3d4, version_major := 2, version_minor := 4, thiszone := 0,
                   sigfigs := 0, snaplen := 65535, linktype := 1 }
      ∧ (stored = true → fileContent (openDump creatable stored self).2.2 = bytes)
      ∧ ∀ bursts : List Burst,
          fwrites ((openDump creatable stored self).2.2
              ++ (receiveAll (openDump creatable stored self).2.1 bursts).2)
            = bytes :: burstWrites bursts := by
  unfold openDump at h ⊢
  cases hf : fopen creatable self.config_.out_file_path with
  | none => simp [hf] at h
  | some f =>
    refine ⟨dumpFileHeader.bytes, by simp, by decide, by decide, by decide, ?_, ?_⟩
    · intro hs
      subst hs
      simp [fileContent, fileStep]
    · intro bursts
      simp only [fwrites_append]
      rw [fwrites_receiveAll_open _ _ (by simp)]
      simp [fwrites]

/-- C1, at a port with an output path, a file that can be created and a stream
that stores the header. -/
theorem C1_openDump_file_header_witness :
    (openDump true true newPort).1 = true
      ∧ fileContent (openDump true true newPort).2.2
          = [0xd4, 0xc3, 0xb2, 0xa1, 0x02, 0x00, 0x04, 0x00, 0, 0, 0, 0, 0, 0, 0, 0,
              0xff, 0xff, 0, 0, 1, 0, 0, 0] := by
  refine ⟨by decide, ?_⟩
  obtain ⟨bytes, _, h2, _, _, h5, _⟩ := C1_openDump_file_header true true newPort (by decide)
  rw [h5 rfl, h2]

/-- A frame of 6 bytes with 4 bytes to read, handed to `onReceive` while a file
is open: the header is written, the read of the payload faults, and neither a
flush nor the release of the burst follows. -/
theorem onReceive_overlongFrame :
    overlongFrame.WellFormed ∧ overlongFrame.data_len ≤ overlongFrame.pkt_len
      ∧ onReceive ts0 allStored openPort [overlongFrame]
          = (openPort, [Event.fwrite (packetHeader ts0 overlongFrame).bytes true, Event.fault])
      ∧ released (onReceive ts0 allStored openPort [overlongFrame]).2 = []
      ∧ flushes (onReceive ts0 allStored openPort [overlongFrame]).2 = 0 := by
  refine ⟨⟨by decide, by decide, by decide⟩, by decide, by decide, by decide, by decide⟩

theorem closeDump_file (self : DPDKPort) : (closeDump self).1.file_ = none := by
  unfold closeDump
  cases hf : self.file_ with
  | none => simpa using hf
  | some f => rfl

/-- C8. While no capture file is open, `onReceive` returns the object as it
was (the file handle stays absent) and its only call is the release of the
burst: no `fwrite`, no `fflush`, no change of the file's content.  No file is
open after an `openDump` that did not succeed, which is the case for an empty
output path, and after `closeDump`. -/
theorem C8_stats_only_mode :
    (∀ (ts : timeval) (stored : Nat → Bool) (self : DPDKPort) (packets : List rte_mbuf),
        self.file_ = none →
          onReceive ts stored self packets = (self, [Event.releasePacketsBulk packets])
            ∧ (onReceive ts stored self packets).1.file_ = none
            ∧ fwrites (onReceive ts stored self packets).2 = []
            ∧ flushes (onReceive ts stored self packets).2 = 0
            ∧ ∀ before : List Event,
                fileContent (before ++ (onReceive ts stored self packets).2) = fileContent before)
      ∧ (∀ (creatable stored : Bool) (self : DPDKPort),
          (openDump creatable stored self).1 = false →
            (openDump creatable stored self).2.1.file_ = none
              ∧ fwrites (openDump creatable stored self).2.2 = [])
      ∧ (∀ (creatable stored : Bool) (self : DPDKPort),
          self.config_.out_file_path = "" → (openDump creatable stored self).1 = false)
      ∧ ∀ self : DPDKPort, (closeDump self).1.file_ = none := by
  refine ⟨?_, ?_, ?_, ?_⟩
  · intro ts stored self packets h
    have e : onReceive ts stored self packets = (self, [Event.releasePacketsBulk packets]) := by
      unfold onReceive
      rw [h]
    rw [e]
    refine ⟨rfl, h, rfl, rfl, ?_⟩
    intro before
    simp [fileContent, fileStep]
  · intro creatable stored self h
    unfold openDump at h ⊢
    cases hf : fopen creatable self.config_.out_file_path with
    | none => simp [fwrites]
    | some f => simp [hf] at h
  · intro creatable stored self h
    have e : fopen creatable self.config_.out_file_path = none := by
      rw [h]
      rfl
    unfold openDump
    rw [e]
  · exact closeDump_file

/-- C8, at a port built without an output path. -/
theorem C8_stats_only_mode_witness :
    onReceive ts0 allStored newPort [shortFrame, wholeFrame]
      = (newPort, [Event.releasePacketsBulk [shortFrame, wholeFrame]]) :=
  (C8_stats_only_mode.1 ts0 allStored newPort [shortFrame, wholeFrame] rfl).1

/-- C9, as stated, fails: with a file open, a burst of two frames causes two
flushes, not one. -/
theorem C9_one_flush_per_burst_counterexample :
    openPort.file_.isSome = true ∧ [wholeFrame, shortFrame] ≠ []
      ∧ flushes (onReceive ts0 allStored openPort [wholeFrame, shortFrame]).2 = 2
      ∧ ¬ flushes (onReceive ts0 allStored openPort [wholeFrame, shortFrame]).2 = 1 := by
  decide

/-- C9, amended. With a file open and every frame of the burst having
`header.len` bytes to read at its data pointer, `onReceive` flushes the stream
once per frame, directly after the two writes of that frame's record: a burst
of n frames causes exactly n flushes, the calls of the loop are write, write,
flush for each frame, and the release of the burst follows the last of them and
ends the invocation. -/
theorem C9_flush_per_frame (ts : timeval) (stored : Nat → Bool) (self : DPDKPort)
    (packets : List rte_mbuf) (hopen : self.file_.isSome = true)
    (hin : ∀ m ∈ packets, u32 m.pkt_len ≤ m.mem.length) :
    flushes (onReceive ts stored self packets).2 = packets.length
      ∧ (onReceive ts stored self packets).2.map Event.kind
          = (List.replicate packets.length [0, 0, 1]).flatten ++ [2]
      ∧ (onReceive ts stored self packets).2.getLast?
          = some (Event.releasePacketsBulk packets) := by
  rw [onReceive_of_readable ts stored self packets hopen hin]
  refine ⟨?_, ?_, ?_⟩
  · simp [flushes_append, flushes_writePackets ts stored 0 packets hin, flushes]
  · simp [kind_writePackets ts stored 0 packets hin, Event.kind]
  · simp

/-- C9 amended, at a burst of two frames. -/
theorem C9_flush_per_frame_witness :
    flushes (onReceive ts0 allStored openPort [wholeFrame, shortFrame]).2 = 2 :=
  (C9_flush_per_frame ts0 allStored openPort [wholeFrame, shortFrame] (by decide)
    (by decide)).1

/-- C2, at a frame whose first segment holds 2 of its 4 bytes: the record header
announces a captured length of 2, and the write that follows it hands 4 bytes
to `fwrite`, the 2 captured bytes and the 2 bytes that lie behind them in the
buffer. -/
theorem C2_payload_has_len_bytes :
    shortFrame.WellFormed ∧ shortFrame.data_len < shortFrame.pkt_len
      ∧ (packetHeader ts0 shortFrame).caplen = 2
      ∧ (packetHeader ts0 shortFrame).len = 4
      ∧ shortFrame.captured = [0xAA, 0xBB]
      ∧ fwrites (onReceive ts0 allStored openPort [shortFrame]).2
          = [(packetHeader ts0 shortFrame).bytes, [0xAA, 0xBB, 0xCC, 0xDD]]
      ∧ fwrites (onReceive ts0 allStored openPort [shortFrame]).2
          ≠ [(packetHeader ts0 shortFrame).bytes, shortFrame.captured]
      ∧ fileContent (onReceive ts0 allStored openPort [shortFrame]).2
          = (packetHeader ts0 shortFrame).bytes ++ [0xAA, 0xBB, 0xCC, 0xDD]
      ∧ (fileContent (onReceive ts0 allStored openPort [shortFrame]).2).length
          ≠ 16 + (packetHeader ts0 shortFrame).caplen := by
  refine ⟨⟨by decide, by decide, by decide⟩, by decide, by decide, by decide, by decide,
    by decide, by decide, by decide, by decide⟩

/-- C3, at one burst of one frame whose first segment holds 2 of its 4 bytes:
the file written by `openDump` and `onReceive` has 24 + 16 + 4 bytes, and a
reader that takes the global header and then records of 16 bytes and `caplen`
payload bytes is left with 2 bytes that make up no record; it does not yield
the frame's triple. -/
theorem C3_round_trip_breaks_on_short_frame :
    shortFrame.WellFormed ∧ shortFrame.data_len ≤ shortFrame.pkt_len
      ∧ (fileContent ((openDump true true newPort).2.2
            ++ (receiveAll (openDump true true newPort).2.1
                  [{ ts := ts0, stored := allStored, packets := [shortFrame] }]).2)).length = 44
      ∧ parseCapture (fileContent ((openDump true true newPort).2.2
            ++ (receiveAll (openDump true true newPort).2.1
                  [{ ts := ts0, stored := allStored, packets := [shortFrame] }]).2)) = none
      ∧ (parseCapture (fileContent ((openDump true true newPort).2.2
            ++ (receiveAll (openDump true true newPort).2.1
                  [{ ts := ts0, stored := allStored, packets := [shortFrame] }]).2))).map
            (fun r => r.2.map Record.triple)
          ≠ some ((framesOf [{ ts := ts0, stored := allStored, packets := [shortFrame] }]).map
              rte_mbuf.triple) := by
  refine ⟨⟨by decide, by decide, by decide⟩, by decide, by decide, by decide, by decide⟩


/-! ### Floating point -/

theorem intLog_eq (x : ℚ) (l : ℤ) (h1 : (2 : ℚ) ^ l ≤ x) (h2 : x < (2 : ℚ) ^ (l + 1)) :
    Int.log 2 x = l := by
  have hx : 0 < x := lt_of_lt_of_le (by positivity) h1
  have a : l ≤ Int.log 2 x := by
    rw [← Int.zpow_le_iff_le_log (by norm_num) hx]
    simpa using h1
  have b : Int.log 2 x < l + 1 := by
    rw [← Int.lt_zpow_iff_log_lt (by norm_num) hx]
    simpa using h2
  omega

theorem intLog_bounds (x : ℚ) (hx : 0 < x) :
    (2 : ℚ) ^ (Int.log 2 x) ≤ x ∧ x < (2 : ℚ) ^ (Int.log 2 x + 1) := by
  have a := Int.zpow_log_le_self (b := 2) (r := x) (by norm_num) hx
  have b := Int.lt_zpow_succ_log_self (b := 2) (by norm_num) x
  simp only [Nat.cast_ofNat] at a b
  exact ⟨a, b⟩

theorem roundHalfEven_eq (q : ℚ) (n : ℤ) (h1 : (n : ℚ) - 1 / 2 < q) (h2 : q < (n : ℚ) + 1 / 2) :
    roundHalfEven q = n := by
  unfold roundHalfEven
  by_cases c : q < n
  · have hf : ⌊q⌋ = n - 1 := by
      rw [Int.floor_eq_iff]
      push_cast
      constructor <;> linarith
    rw [hf]
    push_cast
    rw [if_neg (by linarith), if_pos (by linarith)]
    omega
  · have hf : ⌊q⌋ = n := by
      rw [Int.floor_eq_iff]
      constructor <;> linarith
    rw [hf, if_pos (by linarith)]

theorem roundHalfEven_intCast (n : ℤ) : roundHalfEven (n : ℚ) = n :=
  roundHalfEven_eq _ n (by linarith) (by linarith)

theorem roundHalfEven_error (q : ℚ) : |(roundHalfEven q : ℚ) - q| ≤ 1 / 2 := by
  have h1 := Int.floor_le q
  have h2 := Int.lt_floor_add_one q
  unfold roundHalfEven
  rw [abs_le]
  split_ifs <;> push_cast <;> constructor <;> linarith


theorem roundFloat_zero (prec : Nat) : roundFloat prec 0 = 0 := by
  simp [roundFloat]

/-- A number `n * 2 ^ j` whose significand `n` has fewer than `prec` bits is
kept by the rounding. -/
theorem roundFloat_repr (prec : Nat) (n j : ℤ) (hn : |(n : ℚ)| < (2 : ℚ) ^ prec) :
    roundFloat prec ((n : ℚ) * (2 : ℚ) ^ j) = (n : ℚ) * (2 : ℚ) ^ j := by
  by_cases h0 : n = 0
  · simp [h0, roundFloat]
  have hn0 : (n : ℚ) ≠ 0 := by exact_mod_cast h0
  have hpow : (0 : ℚ) < (2 : ℚ) ^ j := by positivity
  have hx0 : (n : ℚ) * (2 : ℚ) ^ j ≠ 0 := mul_ne_zero hn0 (ne_of_gt hpow)
  have habs : |(n : ℚ) * (2 : ℚ) ^ j| = |(n : ℚ)| * (2 : ℚ) ^ j := by
    rw [abs_mul, abs_of_pos hpow]
  have hpos : 0 < |(n : ℚ) * (2 : ℚ) ^ j| := abs_pos.mpr hx0
  obtain ⟨hl1, _⟩ := intLog_bounds _ hpos
  have hlt : (2 : ℚ) ^ (Int.log 2 |(n : ℚ) * (2 : ℚ) ^ j|) < (2 : ℚ) ^ ((prec : ℤ) + j) := by
    calc (2 : ℚ) ^ (Int.log 2 |(n : ℚ) * (2 : ℚ) ^ j|) ≤ |(n : ℚ)| * (2 : ℚ) ^ j := by
          rw [← habs]; exact hl1
      _ < (2 : ℚ) ^ prec * (2 : ℚ) ^ j := by
          exact mul_lt_mul_of_pos_right hn hpow
      _ = (2 : ℚ) ^ ((prec : ℤ) + j) := by
          rw [zpow_add₀ (by norm_num), zpow_natCast]
  have hl : Int.log 2 |(n : ℚ) * (2 : ℚ) ^ j| < (prec : ℤ) + j :=
    (zpow_lt_zpow_iff_right₀ (by norm_num : (1 : ℚ) < 2)).mp hlt
  unfold roundFloat
  rw [if_neg hx0]
  generalize Int.log 2 |(n : ℚ) * (2 : ℚ) ^ j| = l at hl
  obtain ⟨m, hm⟩ : ∃ m : ℕ, j - (l - ((prec : ℤ) - 1)) = (m : ℤ) :=
    ⟨(j - (l - ((prec : ℤ) - 1))).toNat, by omega⟩
  have hq : (n : ℚ) * (2 : ℚ) ^ j / (2 : ℚ) ^ (l - ((prec : ℤ) - 1))
      = ((n * 2 ^ m : ℤ) : ℚ) := by
    rw [mul_div_assoc, ← zpow_sub₀ (by norm_num), hm, zpow_natCast]
    push_cast
    rfl
  rw [hq, roundHalfEven_intCast]
  push_cast
  rw [mul_assoc, ← zpow_natCast, ← hm, ← zpow_add₀ (by norm_num)]
  congr 2
  omega

theorem roundFloat_intCast (prec : Nat) (n : ℤ) (hn : |(n : ℚ)| < (2 : ℚ) ^ prec) :
    roundFloat prec (n : ℚ) = (n : ℚ) := by
  have h := roundFloat_repr prec n 0 hn
  simpa using h


/-- The shape of a rounded value: for `x ≠ 0` there is an exponent `k` with
`2 ^ (prec - 1) ≤ |x| / 2 ^ k < 2 ^ prec`, and the result is the ratio rounded to
an integer, times `2 ^ k`. -/
theorem roundFloat_shape (prec : Nat) (hp : 1 ≤ prec) (x : ℚ) (hx : x ≠ 0) :
    ∃ k : ℤ, roundFloat prec x = (roundHalfEven (x / (2 : ℚ) ^ k) : ℚ) * (2 : ℚ) ^ k
      ∧ (2 : ℚ) ^ (prec - 1) ≤ |x / (2 : ℚ) ^ k| ∧ |x / (2 : ℚ) ^ k| < (2 : ℚ) ^ prec := by
  refine ⟨Int.log 2 |x| - ((prec : ℤ) - 1), by simp [roundFloat, hx], ?_, ?_⟩
  · obtain ⟨h1, _⟩ := intLog_bounds _ (abs_pos.mpr hx)
    have hk : (0 : ℚ) < (2 : ℚ) ^ (Int.log 2 |x| - ((prec : ℤ) - 1)) := by positivity
    rw [abs_div, abs_of_pos hk, le_div_iff₀ hk, ← zpow_natCast, ← zpow_add₀ (by norm_num)]
    have e : ((prec - 1 : ℕ) : ℤ) + (Int.log 2 |x| - ((prec : ℤ) - 1)) = Int.log 2 |x| := by
      omega
    rw [e]
    exact h1
  · obtain ⟨_, h2⟩ := intLog_bounds _ (abs_pos.mpr hx)
    have hk : (0 : ℚ) < (2 : ℚ) ^ (Int.log 2 |x| - ((prec : ℤ) - 1)) := by positivity
    rw [abs_div, abs_of_pos hk, div_lt_iff₀ hk, ← zpow_natCast, ← zpow_add₀ (by norm_num)]
    have e : (prec : ℤ) + (Int.log 2 |x| - ((prec : ℤ) - 1)) = Int.log 2 |x| + 1 := by
      omega
    rw [e]
    exact h2

/-- The relative error of a rounding is at most `2 ^ (-prec)`. -/
theorem roundFloat_error (prec : Nat) (hp : 1 ≤ prec) (x : ℚ) :
    |roundFloat prec x - x| ≤ |x| / (2 : ℚ) ^ prec := by
  by_cases hx : x = 0
  · simp [hx, roundFloat_zero]
  obtain ⟨k, hk, hlo, _⟩ := roundFloat_shape prec hp x hx
  have hpos : (0 : ℚ) < (2 : ℚ) ^ k := by positivity
  have herr := roundHalfEven_error (x / (2 : ℚ) ^ k)
  have e : roundFloat prec x - x
      = ((roundHalfEven (x / (2 : ℚ) ^ k) : ℚ) - x / (2 : ℚ) ^ k) * (2 : ℚ) ^ k := by
    rw [hk]
    field_simp
  rw [e, abs_mul, abs_of_pos hpos]
  have h2 : (1 : ℚ) / 2 ≤ |x / (2 : ℚ) ^ k| / (2 : ℚ) ^ prec := by
    rw [le_div_iff₀ (by positivity)]
    calc (1 : ℚ) / 2 * (2 : ℚ) ^ prec = (2 : ℚ) ^ (prec - 1) := by
          obtain ⟨m, rfl⟩ : ∃ m, prec = m + 1 := ⟨prec - 1, by omega⟩
          simp only [pow_succ, Nat.add_sub_cancel]
          ring
      _ ≤ |x / (2 : ℚ) ^ k| := hlo
  calc |(roundHalfEven (x / (2 : ℚ) ^ k) : ℚ) - x / (2 : ℚ) ^ k| * (2 : ℚ) ^ k
      ≤ (|x / (2 : ℚ) ^ k| / (2 : ℚ) ^ prec) * (2 : ℚ) ^ k :=
        mul_le_mul_of_nonneg_right (le_trans herr h2) (le_of_lt hpos)
    _ = |x| / (2 : ℚ) ^ prec := by
        rw [abs_div, abs_of_pos hpos]
        field_simp
        ring

/-- Every rounded value is `n * 2 ^ j` with a significand `n` of fewer than
`prec` bits. -/
theorem roundFloat_image (prec : Nat) (hp : 1 ≤ prec) (x : ℚ) :
    ∃ n j : ℤ, |(n : ℚ)| < (2 : ℚ) ^ prec ∧ roundFloat prec x = (n : ℚ) * (2 : ℚ) ^ j := by
  by_cases hx : x = 0
  · exact ⟨0, 0, by simp, by simp [hx, roundFloat_zero]⟩
  obtain ⟨k, hk, _, hhi⟩ := roundFloat_shape prec hp x hx
  have herr := roundHalfEven_error (x / (2 : ℚ) ^ k)
  have hle : |(roundHalfEven (x / (2 : ℚ) ^ k) : ℚ)| < (2 : ℚ) ^ prec + 1 := by
    have := abs_sub_abs_le_abs_sub (roundHalfEven (x / (2 : ℚ) ^ k) : ℚ) (x / (2 : ℚ) ^ k)
    linarith
  generalize roundHalfEven (x / (2 : ℚ) ^ k) = n at hk hle
  have hle2 : |n| ≤ 2 ^ prec := by
    have h3 : ((|n| : ℤ) : ℚ) < ((2 ^ prec + 1 : ℤ) : ℚ) := by
      push_cast
      exact hle
    have h4 : |n| < 2 ^ prec + 1 := by exact_mod_cast h3
    omega
  rcases lt_or_eq_of_le hle2 with hlt | heq
  · refine ⟨n, k, ?_, hk⟩
    have : ((|n| : ℤ) : ℚ) < ((2 ^ prec : ℤ) : ℚ) := by exact_mod_cast hlt
    push_cast at this
    exact this
  · obtain ⟨m, rfl⟩ : ∃ m, prec = m + 1 := ⟨prec - 1, by omega⟩
    have hn : n = 2 ^ (m + 1) ∨ n = -2 ^ (m + 1) := by
      rcases abs_choice n with h | h
      · left; rw [← h]; exact heq
      · right; rw [h] at heq; omega
    rcases hn with rfl | rfl
    · refine ⟨2 ^ m, k + 1, ?_, ?_⟩
      · push_cast
        rw [abs_of_pos (by positivity), pow_succ]
        have : (0 : ℚ) < 2 ^ m := by positivity
        linarith
      · rw [hk, zpow_add₀ (by norm_num)]
        push_cast
        ring
    · refine ⟨-2 ^ m, k + 1, ?_, ?_⟩
      · push_cast
        rw [abs_neg, abs_of_pos (by positivity), pow_succ]
        have : (0 : ℚ) < 2 ^ m := by positivity
        linarith
      · rw [hk, zpow_add₀ (by norm_num)]
        push_cast
        ring

/-- A rounded value times or over a power of two is kept by a rounding of at
least the same precision. -/
theorem roundFloat_scale (p q : Nat) (hp : 1 ≤ p) (hpq : p ≤ q) (x : ℚ) (i : ℤ) :
    roundFloat q (roundFloat p x * (2 : ℚ) ^ i) = roundFloat p x * (2 : ℚ) ^ i := by
  obtain ⟨n, j, hn, hv⟩ := roundFloat_image p hp x
  rw [hv, mul_assoc, ← zpow_add₀ (by norm_num)]
  apply roundFloat_repr
  calc |(n : ℚ)| < (2 : ℚ) ^ p := hn
    _ ≤ (2 : ℚ) ^ q := pow_le_pow_right₀ (by norm_num) hpq

/-- The rounding of a number whose binary exponent is `l`. -/
theorem roundFloat_eq (prec : Nat) (x : ℚ) (l n : ℤ) (h1 : (2 : ℚ) ^ l ≤ |x|)
    (h2 : |x| < (2 : ℚ) ^ (l + 1))
    (hn : roundHalfEven (x / (2 : ℚ) ^ (l - ((prec : ℤ) - 1))) = n) :
    roundFloat prec x = (n : ℚ) * (2 : ℚ) ^ (l - ((prec : ℤ) - 1)) := by
  have hx : x ≠ 0 := by
    intro h
    rw [h, abs_zero] at h1
    exact absurd h1 (not_le.mpr (by positivity))
  unfold roundFloat
  rw [if_neg hx, intLog_eq |x| l h1 h2, hn]

theorem roundDouble_zero : roundDouble 0 = 0 := roundFloat_zero 53

theorem roundDouble_natCast (n : ℕ) (hn : n < 9007199254740992) :
    roundDouble (n : ℚ) = (n : ℚ) := by
  have h := roundFloat_intCast 53 (n : ℤ) (by
    rw [abs_of_nonneg (by positivity)]
    have : (n : ℚ) < (9007199254740992 : ℕ) := by exact_mod_cast hn
    push_cast at this ⊢
    norm_num at this ⊢
    exact this)
  simpa [roundDouble] using h

/-- The relative error of a rounding to `double` is at most `2 ^ (-53)`. -/
theorem roundDouble_error (x : ℚ) : |roundDouble x - x| ≤ |x| / (2 : ℚ) ^ 53 :=
  roundFloat_error 53 (by norm_num) x

/-- A `double` times 8 is a `double`. -/
theorem roundDouble_mul_eight (x : ℚ) : roundDouble (roundDouble x * 8) = roundDouble x * 8 := by
  have h := roundFloat_scale 53 53 (by norm_num) (le_refl _) x 3
  norm_num at h
  exact h

/-- A `double` times 8 over `2 ^ i` is a `long double`. -/
theorem roundLongDouble_rate_div (x : ℚ) (i : ℕ) :
    roundLongDouble (roundDouble x * 8 / (2 : ℚ) ^ i) = roundDouble x * 8 / (2 : ℚ) ^ i := by
  have h := roundFloat_scale 53 64 (by norm_num) (by norm_num) x (3 - (i : ℤ))
  have e : roundFloat 53 x * (2 : ℚ) ^ (3 - (i : ℤ)) = roundDouble x * 8 / (2 : ℚ) ^ i := by
    rw [zpow_sub₀ (by norm_num), zpow_natCast]
    unfold roundDouble
    norm_num
    ring
  rw [e] at h
  exact h

/-! ### The statistics activity -/

theorem u64sub_of_le (a b : Nat) (hle : b ≤ a) (hlt : a < 18446744073709551616) :
    u64sub a b = a - b := by
  unfold u64sub
  omega

theorem rateScale_bit (r : ℚ) (h : r < 1024) : rateScale r = ("bit", 1) := by
  simp [rateScale, h]

theorem rateScale_Kbit (r : ℚ) (h1 : 1024 ≤ r) (h2 : r < 1024 * 1024) :
    rateScale r = ("Kbit", 1024) := by
  simp [rateScale, not_lt.mpr h1, h2]

theorem rateScale_Mbit (r : ℚ) (h1 : 1024 * 1024 ≤ r) (h2 : r < 1024 * 1024 * 1024) :
    rateScale r = ("Mbit", 1024 * 1024) := by
  have h0 : ¬ r < 1024 := by
    intro h
    linarith
  simp [rateScale, h0, not_lt.mpr h1, h2]

theorem rateScale_Gbit (r : ℚ) (h1 : 1024 * 1024 * 1024 ≤ r) :
    rateScale r = ("Gbit", 1024 * 1024 * 1024) := by
  have h0 : ¬ r < 1024 := by
    intro h
    linarith
  have h2 : ¬ r < 1024 * 1024 := by
    intro h
    linarith
  simp [rateScale, h0, h2, not_lt.mpr h1]


theorem time_elapsed_self (t : timespec) : time_elapsed t t = 0 := by
  simp [time_elapsed, roundDouble_zero]

theorem rxRate_eq (ibytes last : Nat) (elapsed : ℚ) (hle : last ≤ ibytes)
    (hlt : ibytes < 18446744073709551616) :
    rxRate ibytes last elapsed
      = roundDouble (roundDouble (((ibytes - last : ℕ) : ℚ)) / elapsed) * 8 := by
  unfold rxRate
  rw [u64sub_of_le ibytes last hle hlt, roundDouble_mul_eight]

/-- The line printed by a sample with a non-zero elapsed time. -/
theorem statsActivity_line (current_timestamp : timespec) (nic_stats : rte_eth_stats)
    (link : Bool) (self : DPDKPort)
    (hel : time_elapsed current_timestamp self.stats_bytes_received_last_meansure_time_ ≠ 0) :
    (statsActivity current_timestamp nic_stats link self).2
      = some
          { link := link
            rx_rate :=
              roundLongDouble
                (rxRate nic_stats.ibytes self.stats_bytes_received_last_meansure_
                    (time_elapsed current_timestamp
                      self.stats_bytes_received_last_meansure_time_)
                  / ((rateScale
                      (rxRate nic_stats.ibytes self.stats_bytes_received_last_meansure_
                        (time_elapsed current_timestamp
                          self.stats_bytes_received_last_meansure_time_))).2 : ℚ))
            rx_rate_name :=
              (rateScale
                (rxRate nic_stats.ibytes self.stats_bytes_received_last_meansure_
                  (time_elapsed current_timestamp
                    self.stats_bytes_received_last_meansure_time_))).1
            ipackets := nic_stats.ipackets
            ibytes := nic_stats.ibytes
            ierrors := nic_stats.ierrors } := by
  simp [statsActivity, hel]

/-- The value and the unit shown for a rate that is a `double` times 8. -/
theorem scaled_rate (y : ℚ) :
    (roundDouble y * 8 < 1024 →
        (rateScale (roundDouble y * 8)).1 = "bit"
          ∧ roundLongDouble (roundDouble y * 8 / ((rateScale (roundDouble y * 8)).2 : ℚ))
              = roundDouble y * 8 / 1)
      ∧ (1024 ≤ roundDouble y * 8 → roundDouble y * 8 < 1024 ^ 2 →
        (rateScale (roundDouble y * 8)).1 = "Kbit"
          ∧ roundLongDouble (roundDouble y * 8 / ((rateScale (roundDouble y * 8)).2 : ℚ))
              = roundDouble y * 8 / 1024)
      ∧ (1024 ^ 2 ≤ roundDouble y * 8 → roundDouble y * 8 < 1024 ^ 3 →
        (rateScale (roundDouble y * 8)).1 = "Mbit"
          ∧ roundLongDouble (roundDouble y * 8 / ((rateScale (roundDouble y * 8)).2 : ℚ))
              = roundDouble y * 8 / 1024 ^ 2)
      ∧ (1024 ^ 3 ≤ roundDouble y * 8 →
        (rateScale (roundDouble y * 8)).1 = "Gbit"
          ∧ roundLongDouble (roundDouble y * 8 / ((rateScale (roundDouble y * 8)).2 : ℚ))
              = roundDouble y * 8 / 1024 ^ 3) := by
  have d0 := roundLongDouble_rate_div y 0
  have d1 := roundLongDouble_rate_div y 10
  have d2 := roundLongDouble_rate_div y 20
  have d3 := roundLongDouble_rate_div y 30
  norm_num at d0 d1 d2 d3
  refine ⟨?_, ?_, ?_, ?_⟩
  · intro h
    rw [rateScale_bit _ h]
    simpa using d0
  · intro h1 h2
    rw [rateScale_Kbit _ h1 (by linarith)]
    simpa using d1
  · intro h1 h2
    rw [rateScale_Mbit _ (by linarith) (by linarith)]
    norm_num
    exact d2
  · intro h1
    rw [rateScale_Gbit _ (by linarith)]
    norm_num
    exact d3

theorem roundDouble_one : roundDouble 1 = 1 := by
  simpa using roundDouble_natCast 1 (by norm_num)

/-- The elapsed time of the sample `t = 1 s` after the baseline `t = 0`. -/
theorem time_elapsed_one_second :
    time_elapsed { tv_sec := 1, tv_nsec := 0 } { tv_sec := 0, tv_nsec := 0 } = 1 := by
  simp [time_elapsed, roundDouble_zero, roundDouble_one]

/-- The elapsed time of the sample `t = 2 s` after the baseline `t = 0`. -/
theorem time_elapsed_two_seconds :
    time_elapsed { tv_sec := 2, tv_nsec := 0 } { tv_sec := 0, tv_nsec := 0 } = 2 := by
  have h2 : roundDouble 2 = 2 := by simpa using roundDouble_natCast 2 (by norm_num)
  simp [time_elapsed, roundDouble_zero, h2]

/-- The elapsed time of the sample `t = 2 ^ 24 s + 1 ns` after the baseline
`t = 0`: the sum `16777216 + 1e-9` rounds to `16777216`. -/
theorem time_elapsed_rounds :
    time_elapsed { tv_sec := 16777216, tv_nsec := 1 } { tv_sec := 0, tv_nsec := 0 }
      = 16777216 := by
  have hs : roundDouble 16777216 = 16777216 := by
    simpa using roundDouble_natCast 16777216 (by norm_num)
  have herr := roundDouble_error (1 / 1000000000)
  rw [abs_of_pos (by norm_num : (0 : ℚ) < 1 / 1000000000), abs_le] at herr
  obtain ⟨d, hd⟩ : ∃ d, d = roundDouble (1 / 1000000000) := ⟨_, rfl⟩
  rw [← hd] at herr
  have hlo : 0 < d := by
    norm_num at herr
    linarith [herr.1]
  have hhi : d < 1 / 536870912 := by
    norm_num at herr
    linarith [herr.2]
  have hsum : roundDouble (16777216 + d) = 16777216 := by
    have hpos : 0 < 16777216 + d := by linarith
    have h := roundFloat_eq 53 (16777216 + d) 24 4503599627370496
      (by rw [abs_of_pos hpos]; norm_num; linarith)
      (by rw [abs_of_pos hpos]; norm_num; linarith)
      (by
        apply roundHalfEven_eq
        · norm_num
          rw [lt_div_iff₀ (by norm_num)]
          linarith
        · norm_num
          rw [div_lt_iff₀ (by norm_num)]
          linarith)
    show roundFloat 53 (16777216 + d) = 16777216
    rw [h]
    norm_num
  simp only [time_elapsed, sub_zero, Int.cast_ofNat, Int.cast_one, roundDouble_one, hs, ← hd]
  exact hsum

theorem roundLongDouble_one : roundLongDouble 1 = 1 := by
  have h := roundFloat_intCast 64 1 (by norm_num)
  simpa [roundLongDouble] using h

/-- The rate when the byte difference is a `double` and its quotient by the
elapsed time is a whole number that is a `double`. -/
theorem rxRate_of_whole (ibytes last : Nat) (elapsed : ℚ) (q : ℕ) (hle : last ≤ ibytes)
    (hlt : ibytes < 9007199254740992) (hq : ((ibytes - last : ℕ) : ℚ) / elapsed = (q : ℚ))
    (hq53 : q < 9007199254740992) :
    rxRate ibytes last elapsed = (q : ℚ) * 8 := by
  rw [rxRate_eq ibytes last elapsed hle (by omega), roundDouble_natCast _ (by omega), hq,
    roundDouble_natCast q hq53]

/-- The line of a sample whose rate is `1024 ^ 2` bits per second. -/
theorem statsActivity_one_Mbit (current_timestamp : timespec) (nic_stats : rte_eth_stats)
    (link : Bool) (self : DPDKPort)
    (hel : time_elapsed current_timestamp self.stats_bytes_received_last_meansure_time_ ≠ 0)
    (hr : rxRate nic_stats.ibytes self.stats_bytes_received_last_meansure_
        (time_elapsed current_timestamp self.stats_bytes_received_last_meansure_time_)
      = 1024 * 1024) :
    (statsActivity current_timestamp nic_stats link self).2
      = some { link := link, rx_rate := 1, rx_rate_name := "Mbit",
               ipackets := nic_stats.ipackets, ibytes := nic_stats.ibytes,
               ierrors := nic_stats.ierrors } := by
  rw [statsActivity_line _ _ _ _ hel, hr, rateScale_Mbit _ (le_refl _) (by norm_num)]
  norm_num [roundLongDouble_one]

/-- C6, as stated, fails: after the baseline `(bytes = 0, t = 0)` the sample
`(bytes = 2 ^ 31, t = 2 ^ 24 s + 1 ns)` has a non-zero elapsed time and a byte
counter above the previous one, and `(current_bytes - previous_bytes) /
elapsed_seconds * 8` is below 1024, so the claim wants the rate shown in `bit`;
the code, computing in `double`, finds an elapsed time of `2 ^ 24` and a rate of
1024, and shows 1 `Kbit`. -/
theorem C6_exact_rate_counterexample :
    elapsedSeconds { tv_sec := 16777216, tv_nsec := 1 }
        baselinePort.stats_bytes_received_last_meansure_time_ ≠ 0
      ∧ baselinePort.stats_bytes_received_last_meansure_ ≤ roundingStats.ibytes
      ∧ specRate roundingStats.ibytes baselinePort.stats_bytes_received_last_meansure_
          (elapsedSeconds { tv_sec := 16777216, tv_nsec := 1 }
            baselinePort.stats_bytes_received_last_meansure_time_) < 1024
      ∧ (statsActivity { tv_sec := 16777216, tv_nsec := 1 } roundingStats true baselinePort).2
          = some { link := true, rx_rate := 1, rx_rate_name := "Kbit", ipackets := 2097152,
                   ibytes := 2147483648, ierrors := 0 } := by
  refine ⟨by norm_num [elapsedSeconds, baselinePort], by decide,
    by norm_num [specRate, elapsedSeconds, baselinePort, roundingStats], ?_⟩
  have hte : time_elapsed { tv_sec := 16777216, tv_nsec := 1 }
      baselinePort.stats_bytes_received_last_meansure_time_ = 16777216 := time_elapsed_rounds
  have hel : time_elapsed { tv_sec := 16777216, tv_nsec := 1 }
      baselinePort.stats_bytes_received_last_meansure_time_ ≠ 0 := by
    rw [hte]
    norm_num
  have hr : rxRate roundingStats.ibytes baselinePort.stats_bytes_received_last_meansure_
      (time_elapsed { tv_sec := 16777216, tv_nsec := 1 }
        baselinePort.stats_bytes_received_last_meansure_time_) = 1024 := by
    rw [hte, rxRate_of_whole roundingStats.ibytes baselinePort.stats_bytes_received_last_meansure_
      16777216 128 (by decide) (by decide) (by norm_num [roundingStats, baselinePort])
      (by norm_num)]
    norm_num
  rw [statsActivity_line _ _ _ _ hel, hr, rateScale_Kbit _ (le_refl _) (by norm_num)]
  norm_num [roundLongDouble_one, roundingStats]

/-- C6, amended. For a sample whose elapsed time `e`, computed in `double` as
the difference of the seconds plus the difference of the nanoseconds over
`1e9`, is not zero, and whose byte counter is a 64-bit value not below the
previous one, a line is printed, and with `r` the rate computed in `double`,
`(current_bytes - previous_bytes) / e * 8`, it shows `r` in `bit` when
`r < 1024`, `r / 1024` in `Kbit` when `1024 ≤ r < 1024²`, `r / 1024²` in `Mbit`
when `1024² ≤ r < 1024³`, and `r / 1024³` in `Gbit` from there on; the value
shown is below 1024 for every unit but `Gbit`.  The samples
`(bytes = 131072, t = 1 s)` and `(bytes = 262144, t = 2 s)` after the baseline
`(bytes = 0, t = 0)` show the value 1 in `Mbit`.  At each threshold 1023 scaled
units stay in the unit, 1024 and 1025 move to the next one. -/
theorem C6_rate_and_unit :
    (∀ (current_timestamp : timespec) (nic_stats : rte_eth_stats) (link : Bool)
        (self : DPDKPort) (e r : ℚ),
        self.stats_bytes_received_last_meansure_ ≤ nic_stats.ibytes →
        nic_stats.ibytes < 18446744073709551616 →
        e = roundDouble
              (roundDouble
                  (((current_timestamp.tv_sec
                      - self.stats_bytes_received_last_meansure_time_.tv_sec : Int)) : ℚ)
                + roundDouble
                    (roundDouble
                        (((current_timestamp.tv_nsec
                            - self.stats_bytes_received_last_meansure_time_.tv_nsec : Int)) : ℚ)
                      / 1000000000)) →
        e ≠ 0 →
        r = roundDouble
              (roundDouble
                  (((nic_stats.ibytes - self.stats_bytes_received_last_meansure_ : ℕ)) : ℚ)
                / e) * 8 →
        ∃ line : StatsLine,
          (statsActivity current_timestamp nic_stats link self).2 = some line
            ∧ (r < 1024 → line.rx_rate_name = "bit" ∧ line.rx_rate = r / 1)
            ∧ (1024 ≤ r → r < 1024 ^ 2 →
                line.rx_rate_name = "Kbit" ∧ line.rx_rate = r / 1024)
            ∧ (1024 ^ 2 ≤ r → r < 1024 ^ 3 →
                line.rx_rate_name = "Mbit" ∧ line.rx_rate = r / 1024 ^ 2)
            ∧ (1024 ^ 3 ≤ r → line.rx_rate_name = "Gbit" ∧ line.rx_rate = r / 1024 ^ 3)
            ∧ (line.rx_rate_name ≠ "Gbit" → line.rx_rate < 1024)
            ∧ line.link = link ∧ line.ipackets = nic_stats.ipackets
            ∧ line.ibytes = nic_stats.ibytes ∧ line.ierrors = nic_stats.ierrors)
      ∧ (statsActivity { tv_sec := 1, tv_nsec := 0 } sampleStats true baselinePort).2
          = some { link := true, rx_rate := 1, rx_rate_name := "Mbit", ipackets := 128,
                   ibytes := 131072, ierrors := 0 }
      ∧ (statsActivity { tv_sec := 2, tv_nsec := 0 } twoSecondStats true baselinePort).2
          = some { link := true, rx_rate := 1, rx_rate_name := "Mbit", ipackets := 256,
                   ibytes := 262144, ierrors := 0 }
      ∧ (rateScale 1023 = ("bit", 1) ∧ rateScale 1024 = ("Kbit", 1024)
          ∧ rateScale 1025 = ("Kbit", 1024))
      ∧ (rateScale (1023 * 1024) = ("Kbit", 1024)
          ∧ rateScale (1024 * 1024) = ("Mbit", 1024 * 1024)
          ∧ rateScale (1025 * 1024) = ("Mbit", 1024 * 1024))
      ∧ (rateScale (1023 * 1024 ^ 2) = ("Mbit", 1024 * 1024)
          ∧ rateScale (1024 * 1024 ^ 2) = ("Gbit", 1024 * 1024 * 1024)
          ∧ rateScale (1025 * 1024 ^ 2) = ("Gbit", 1024 * 1024 * 1024)) := by
  refine ⟨?_, ?_, ?_, ?_, ?_, ?_⟩
  · intro current_timestamp nic_stats link self e r hle hlt he hne hr
    have hte : time_elapsed current_timestamp self.stats_bytes_received_last_meansure_time_
        = e := by
      rw [he]
      rfl
    have hrate : rxRate nic_stats.ibytes self.stats_bytes_received_last_meansure_ e = r := by
      rw [hr, rxRate_eq _ _ _ hle hlt]
    have hel : time_elapsed current_timestamp self.stats_bytes_received_last_meansure_time_
        ≠ 0 := by
      rw [hte]
      exact hne
    refine ⟨_, statsActivity_line current_timestamp nic_stats link self hel, ?_⟩
    simp only [hte, hrate]
    obtain ⟨s0, s1, s2, s3⟩ := scaled_rate
      (roundDouble (((nic_stats.ibytes - self.stats_bytes_received_last_meansure_ : ℕ)) : ℚ) / e)
    rw [← hr] at s0 s1 s2 s3
    refine ⟨s0, s1, s2, s3, ?_, ?_⟩
    · intro hne2
      by_cases c1 : r < 1024
      · rw [(s0 c1).2]
        simpa using c1
      · by_cases c2 : r < 1024 ^ 2
        · rw [(s1 (not_lt.mp c1) c2).2, div_lt_iff₀ (by norm_num)]
          linarith
        · by_cases c3 : r < 1024 ^ 3
          · rw [(s2 (not_lt.mp c2) c3).2, div_lt_iff₀ (by norm_num)]
            linarith
          · exact absurd (s3 (not_lt.mp c3)).1 hne2
    · simp
  · exact statsActivity_one_Mbit _ _ _ _ (by
        show time_elapsed { tv_sec := 1, tv_nsec := 0 } { tv_sec := 0, tv_nsec := 0 } ≠ 0
        rw [time_elapsed_one_second]
        norm_num) (by
        show rxRate 131072 0 (time_elapsed { tv_sec := 1, tv_nsec := 0 }
          { tv_sec := 0, tv_nsec := 0 }) = 1024 * 1024
        rw [time_elapsed_one_second,
          rxRate_of_whole 131072 0 1 131072 (by norm_num) (by norm_num) (by norm_num)
            (by norm_num)]
        norm_num)
  · exact statsActivity_one_Mbit _ _ _ _ (by
        show time_elapsed { tv_sec := 2, tv_nsec := 0 } { tv_sec := 0, tv_nsec := 0 } ≠ 0
        rw [time_elapsed_two_seconds]
        norm_num) (by
        show rxRate 262144 0 (time_elapsed { tv_sec := 2, tv_nsec := 0 }
          { tv_sec := 0, tv_nsec := 0 }) = 1024 * 1024
        rw [time_elapsed_two_seconds,
          rxRate_of_whole 262144 0 2 131072 (by norm_num) (by norm_num) (by norm_num)
            (by norm_num)]
        norm_num)
  · exact ⟨rateScale_bit _ (by norm_num), rateScale_Kbit _ (by norm_num) (by norm_num),
      rateScale_Kbit _ (by norm_num) (by norm_num)⟩
  · exact ⟨rateScale_Kbit _ (by norm_num) (by norm_num),
      rateScale_Mbit _ (by norm_num) (by norm_num),
      rateScale_Mbit _ (by norm_num) (by norm_num)⟩
  · exact ⟨rateScale_Mbit _ (by norm_num) (by norm_num), rateScale_Gbit _ (by norm_num),
      rateScale_Gbit _ (by norm_num)⟩


/-- C6 amended, at the baseline `(bytes = 0, t = 0)` followed by the sample
`(bytes = 131072, t = 1 s)`: the elapsed time is 1, the rate is `1024²` bits
per second and the line shows it as 1 `Mbit`. -/
theorem C6_rate_and_unit_witness :
    ∃ line : StatsLine,
      (statsActivity { tv_sec := 1, tv_nsec := 0 } sampleStats false baselinePort).2 = some line
        ∧ line.rx_rate_name = "Mbit" ∧ line.rx_rate = 1 := by
  obtain ⟨line, h1, _, _, h4, _⟩ :=
    C6_rate_and_unit.1 { tv_sec := 1, tv_nsec := 0 } sampleStats false baselinePort 1 (1024 ^ 2)
      (by decide) (by decide) time_elapsed_one_second.symm (by norm_num)
      (by
        have h : roundDouble (131072 : ℚ) = 131072 := by
          simpa using roundDouble_natCast 131072 (by norm_num)
        norm_num [sampleStats, baselinePort, h])
  refine ⟨line, h1, (h4 (le_refl _) (by norm_num)).1, ?_⟩
  rw [(h4 (le_refl _) (by norm_num)).2]
  norm_num

/-- C7. A sample whose timestamp is the previous one has an elapsed time of
zero and prints no line (the rate, and with it the division, belongs to the
branch that prints); a line is printed exactly when the elapsed time is not
zero.  Every sample, whatever the elapsed time, stores the byte counter and
the timestamp just read as the new baseline and leaves the rest of the object
as it was. -/
theorem C7_zero_elapsed_sample (current_timestamp : timespec) (nic_stats : rte_eth_stats)
    (link : Bool) (self : DPDKPort) :
    (current_timestamp = self.stats_bytes_received_last_meansure_time_ →
        time_elapsed current_timestamp self.stats_bytes_received_last_meansure_time_ = 0
          ∧ (statsActivity current_timestamp nic_stats link self).2 = none)
      ∧ ((statsActivity current_timestamp nic_stats link self).2 = none ↔
          time_elapsed current_timestamp self.stats_bytes_received_last_meansure_time_ = 0)
      ∧ (statsActivity current_timestamp nic_stats link self).1
          = { self with
              stats_bytes_received_last_meansure_ := nic_stats.ibytes
              stats_bytes_received_last_meansure_time_ := current_timestamp }
      ∧ (statsActivity current_timestamp nic_stats link self).1.stats_bytes_received_last_meansure_
          = nic_stats.ibytes
      ∧ (statsActivity current_timestamp nic_stats link
            self).1.stats_bytes_received_last_meansure_time_ = current_timestamp := by
  have hiff : (statsActivity current_timestamp nic_stats link self).2 = none ↔
      time_elapsed current_timestamp self.stats_bytes_received_last_meansure_time_ = 0 := by
    by_cases h : time_elapsed current_timestamp self.stats_bytes_received_last_meansure_time_ = 0
    · simp [statsActivity, h]
    · simp [statsActivity, h]
  refine ⟨?_, hiff, rfl, rfl, rfl⟩
  intro heq
  have h0 : time_elapsed current_timestamp self.stats_bytes_received_last_meansure_time_ = 0 := by
    rw [heq]
    exact time_elapsed_self _
  exact ⟨h0, hiff.mpr h0⟩


/-! ### The entry point -/

theorem isTeardown_writePackets (ts : timeval) (stored : Nat → Bool) (k : Nat)
    (packets : List rte_mbuf) :
    ∀ e ∈ writePackets ts stored k packets, e.isTeardown = false := by
  induction packets generalizing k with
  | nil => simp [writePackets]
  | cons m ms ih =>
    intro e he
    by_cases h : u32 m.pkt_len ≤ m.mem.length
    · rw [writePackets_cons_of_readable ts stored k m ms h] at he
      simp only [List.mem_append, List.mem_cons] at he
      rcases he with (rfl | rfl | rfl | h) | h
      · rfl
      · rfl
      · rfl
      · simp at h
      · exact ih _ e h
    · rw [writePackets_cons_of_not_readable ts stored k m ms h] at he
      simp only [List.mem_cons] at he
      rcases he with rfl | rfl | h
      · rfl
      · rfl
      · simp at h

theorem isTeardown_onReceive (ts : timeval) (stored : Nat → Bool) (self : DPDKPort)
    (packets : List rte_mbuf) :
    ∀ e ∈ (onReceive ts stored self packets).2, e.isTeardown = false := by
  unfold onReceive
  cases self.file_ with
  | none =>
    intro e he
    simp only [List.mem_singleton] at he
    rw [he]
    rfl
  | some f =>
    intro e he
    by_cases hf : faulted (writePackets ts stored 0 packets) = true
    · simp only [hf, if_true] at he
      exact isTeardown_writePackets ts stored 0 packets e he
    · have hf2 : faulted (writePackets ts stored 0 packets) = false := by simpa using hf
      simp only [hf2, Bool.false_eq_true, if_false, List.mem_append, List.mem_singleton] at he
      rcases he with h | rfl
      · exact isTeardown_writePackets ts stored 0 packets e h
      · rfl

theorem isTeardown_receiveAll (self : DPDKPort) (bursts : List Burst) :
    ∀ e ∈ (receiveAll self bursts).2, e.isTeardown = false := by
  induction bursts with
  | nil => simp [receiveAll]
  | cons b bs ih =>
    intro e he
    rw [receiveAll_cons] at he
    split at he
    · exact isTeardown_onReceive _ _ _ _ e he
    · simp only [List.mem_append] at he
      rcases he with h | h
      · exact isTeardown_onReceive _ _ _ _ e h
      · exact ih e h

theorem isTeardown_openDump (creatable stored : Bool) (self : DPDKPort) :
    ∀ e ∈ (openDump creatable stored self).2.2, e.isTeardown = false := by
  unfold openDump
  cases fopen creatable self.config_.out_file_path with
  | none =>
    intro e he
    simp only [List.mem_singleton] at he
    rw [he]
    rfl
  | some f =>
    intro e he
    simp only [List.mem_cons] at he
    rcases he with rfl | rfl | rfl | h
    · rfl
    · rfl
    · rfl
    · simp at h

theorem openDump_file (creatable stored : Bool) (self : DPDKPort) :
    (openDump creatable stored self).2.1.file_.isSome = (openDump creatable stored self).1 := by
  unfold openDump
  cases fopen creatable self.config_.out_file_path <;> rfl

/-- C10, as stated, fails: in a run with an open capture file the last four
calls are the stop of the statistics activity, the stop of the port, the
close of the file and the shutdown of the port; the port is stopped before the
file is closed, not after. -/
theorem C10_close_before_stop_counterexample :
    sampleRun.2.drop (sampleRun.2.length - 4)
        = [Event.statsStop, Event.portStop, Event.fclose, Event.portShutdown]
      ∧ sampleRun.2.drop (sampleRun.2.length - 4)
        ≠ [Event.statsStop, Event.fclose, Event.portStop, Event.portShutdown]
      ∧ sampleRun.2.indexOf Event.portStop < sampleRun.2.indexOf Event.fclose
      ∧ ¬ sampleRun.2.indexOf Event.fclose < sampleRun.2.indexOf Event.portStop := by
  decide

/-- C10, amended. Every run of `main` that leaves the receive loop (no
invocation of `onReceive` ends the process by a fault) ends with the calls:
stop of the statistics activity, stop of the port, close of the capture file
when one is open, shutdown of the port, in this order; none of these calls
occurs before, and no file is open at the end.  So the sampler is stopped
first, and `closeDump` comes after the port is stopped and before it is shut
down. -/
theorem C10_teardown_order (config : AppConfig) (bytes0 : Nat) (time0 : timespec)
    (creatable stored : Bool) (bursts : List Burst)
    (hexit : faulted
        (receiveAll (openDump creatable stored (constructPort config bytes0 time0)).2.1
          bursts).2 = false) :
    ∃ before closing : List Event,
      (mainRun config bytes0 time0 creatable stored bursts).2
          = before ++ [Event.statsStop, Event.portStop] ++ closing ++ [Event.portShutdown]
        ∧ before
          = (openDump creatable stored (constructPort config bytes0 time0)).2.2
              ++ [Event.portStart, Event.statsStart]
              ++ (receiveAll (openDump creatable stored (constructPort config bytes0 time0)).2.1
                    bursts).2
        ∧ closing
          = (if (openDump creatable stored (constructPort config bytes0 time0)).1 = true
              then [Event.fclose] else [])
        ∧ (∀ e ∈ before, e.isTeardown = false)
        ∧ (mainRun config bytes0 time0 creatable stored bursts).1.file_ = none := by
  refine ⟨_, _, ?_, rfl, rfl, ?_, ?_⟩
  · have hf := openDump_file creatable stored (constructPort config bytes0 time0)
    simp only [mainRun, hexit, Bool.false_eq_true, if_false, teardown, receiveAll_self, closeDump]
    cases ho : (openDump creatable stored (constructPort config bytes0 time0)).1
    · rw [ho] at hf
      cases hfile : (openDump creatable stored (constructPort config bytes0 time0)).2.1.file_ with
      | none => simp
      | some f => simp [hfile] at hf
    · rw [ho] at hf
      cases hfile : (openDump creatable stored (constructPort config bytes0 time0)).2.1.file_ with
      | none => simp [hfile] at hf
      | some f => simp
  · intro e he
    simp only [List.mem_append, List.mem_cons] at he
    rcases he with (h | h) | h
    · exact isTeardown_openDump _ _ _ e h
    · rcases h with rfl | rfl | h
      · rfl
      · rfl
      · simp at h
    · exact isTeardown_receiveAll _ _ e h
  · simp only [mainRun, hexit, Bool.false_eq_true, if_false, teardown, receiveAll_self]
    exact closeDump_file _

/-- C10 amended, at the run with an open capture file and one burst of two
frames. -/
theorem C10_teardown_order_witness :
    ∃ before : List Event,
      sampleRun.2
          = before ++ [Event.statsStop, Event.portStop] ++ [Event.fclose]
              ++ [Event.portShutdown]
        ∧ ∀ e ∈ before, e.isTeardown = false := by
  obtain ⟨before, closing, h1, _, h3, h4, _⟩ :=
    C10_teardown_order { out_file_path := "dump.pcap" } 0 { tv_sec := 0, tv_nsec := 0 } true true
      [{ ts := ts0, stored := allStored, packets := [wholeFrame, wholeFrame] }] (by decide)
  have hc : closing = [Event.fclose] := by
    rw [h3]
    rfl
  rw [hc] at h1
  exact ⟨before, h1, h4⟩

/-- A run of `main` in which an invocation of `onReceive` faults ends there:
none of the calls that follow the receive loop is made. -/
theorem mainRun_of_fault (config : AppConfig) (bytes0 : Nat) (time0 : timespec)
    (creatable stored : Bool) (bursts : List Burst)
    (hfault : faulted
        (receiveAll (openDump creatable stored (constructPort config bytes0 time0)).2.1
          bursts).2 = true) :
    ∀ e ∈ (mainRun config bytes0 time0 creatable stored bursts).2, e.isTeardown = false := by
  intro e he
  simp only [mainRun, hfault, if_true, List.mem_append, List.mem_cons] at he
  rcases he with ((h | h) | h) | h
  · exact isTeardown_openDump _ _ _ e h
  · rcases h with rfl | h
    · rfl
    · simp at h
  · rcases h with rfl | h
    · rfl
    · simp at h
  · exact isTeardown_receiveAll _ _ e h

/-! ### Reading back what was written -/

theorem recordsBytes_append (a b : List Record) :
    recordsBytes (a ++ b) = recordsBytes a ++ recordsBytes b := by
  induction a with
  | nil => rfl
  | cons r rs ih => simp [recordsBytes, ih]

theorem parseRecords_cons (fuel : Nat) (bs : List Nat) (hne : bs ≠ []) :
    parseRecords (fuel + 1) bs
      = match decodePacketHeader (bs.take 16) with
        | none => none
        | some h =>
          if h.caplen ≤ (bs.drop 16).length then
            (parseRecords fuel (bs.drop (16 + h.caplen))).map
              (fun rs => { header := h, payload := (bs.drop 16).take h.caplen } :: rs)
          else none := by
  cases bs with
  | nil => exact absurd rfl hne
  | cons b bs => rfl

theorem packetHeader_bytes_ne_nil (h : PCAPPacketHeader) (tail : List Nat) :
    h.bytes ++ tail ≠ [] := by
  simp [PCAPPacketHeader.bytes, le32]

/-- One record followed by further bytes is read back as that record, and the
reader goes on with the further bytes. -/
theorem parseRecords_record (fuel : Nat) (r : Record) (rest : List Nat) (hr : r.WellFormed) :
    parseRecords (fuel + 1) (r.header.bytes ++ r.payload ++ rest)
      = (parseRecords fuel rest).map (fun rs => r :: rs) := by
  obtain ⟨h1, h2, h3, h4, h5⟩ := hr
  rw [List.append_assoc, parseRecords_cons fuel _ (packetHeader_bytes_ne_nil _ _)]
  have htake : (r.header.bytes ++ (r.payload ++ rest)).take 16 = r.header.bytes :=
    List.take_left' (packetHeader_bytes_length _)
  have hdrop : (r.header.bytes ++ (r.payload ++ rest)).drop 16 = r.payload ++ rest :=
    List.drop_left' (packetHeader_bytes_length _)
  have hdrop2 : (r.header.bytes ++ (r.payload ++ rest)).drop (16 + r.header.caplen) = rest := by
    rw [← List.drop_drop, hdrop]
    exact List.drop_left' h5
  have htake2 : (r.payload ++ rest).take r.header.caplen = r.payload := List.take_left' h5
  rw [htake, decodePacketHeader_bytes _ h1 h2 h3 h4]
  simp only [hdrop, hdrop2, htake2]
  have hle : r.header.caplen ≤ (r.payload ++ rest).length := by
    rw [List.length_append, h5]
    omega
  rw [if_pos hle]

/-- Well-formed records are read back from their bytes, with nothing left
over. -/
theorem parseRecords_recordsBytes (rs : List Record) (hrs : ∀ r ∈ rs, r.WellFormed) (fuel : Nat)
    (hfuel : rs.length ≤ fuel) :
    parseRecords fuel (recordsBytes rs) = some rs := by
  induction rs generalizing fuel with
  | nil => cases fuel <;> rfl
  | cons r rs ih =>
    cases fuel with
    | zero => simp at hfuel
    | succ fuel =>
      simp only [recordsBytes]
      rw [parseRecords_record fuel r _ (hrs r (List.mem_cons_self _ _))]
      rw [ih (fun x hx => hrs x (List.mem_cons_of_mem _ hx)) fuel (by simpa using hfuel)]
      rfl

theorem recordsBytes_length (rs : List Record) : rs.length ≤ (recordsBytes rs).length := by
  induction rs with
  | nil => simp
  | cons r rs ih =>
    simp only [recordsBytes, List.length_append, List.length_cons, packetHeader_bytes_length]
    omega

theorem foldl_fileStep_writePackets (ts : timeval) (stored : Nat → Bool)
    (hstored : ∀ k, stored k = true) (k : Nat) (packets : List rte_mbuf)
    (hin : ∀ m ∈ packets, u32 m.pkt_len ≤ m.mem.length) (content : List Nat) :
    (writePackets ts stored k packets).foldl fileStep content
      = content ++ recordsBytes (burstRecords ts packets) := by
  induction packets generalizing k content with
  | nil => simp [writePackets, burstRecords, recordsBytes]
  | cons m ms ih =>
    rw [writePackets_cons_of_readable ts stored k m ms (hin m (List.mem_cons_self _ _))]
    simp only [List.foldl_append, List.foldl_cons, List.foldl_nil, hstored, fileStep]
    rw [ih _ (fun x hx => hin x (List.mem_cons_of_mem _ hx))]
    simp [burstRecords, recordsBytes]

theorem foldl_fileStep_receiveAll (self : DPDKPort) (hopen : self.file_.isSome = true)
    (bursts : List Burst) (hstored : ∀ b ∈ bursts, ∀ k, b.stored k = true)
    (hin : ∀ m ∈ framesOf bursts, u32 m.pkt_len ≤ m.mem.length) (content : List Nat) :
    (receiveAll self bursts).2.foldl fileStep content
      = content ++ recordsBytes (allRecords bursts) := by
  induction bursts generalizing content with
  | nil => simp [receiveAll, allRecords, recordsBytes]
  | cons b bs ih =>
    have hb := hstored b (List.mem_cons_self _ _)
    have hinb : ∀ m ∈ b.packets, u32 m.pkt_len ≤ m.mem.length :=
      fun m hm => hin m (by simp [framesOf, hm])
    have hnf : faulted (onReceive b.ts b.stored self b.packets).2 = false := by
      rw [faulted_onReceive_open _ _ _ _ hopen, (readable_iff b.packets).mpr hinb]
      rfl
    rw [receiveAll_cons, hnf]
    simp only [Bool.false_eq_true, if_false, List.foldl_append]
    rw [ih (fun x hx => hstored x (List.mem_cons_of_mem _ hx))
      (fun m hm => hin m (by simp [framesOf, hm]))]
    rw [onReceive_of_readable b.ts b.stored self b.packets hopen hinb]
    simp only [List.foldl_append, List.foldl_cons, List.foldl_nil, fileStep]
    rw [foldl_fileStep_writePackets b.ts b.stored hb 0 b.packets hinb content]
    simp [allRecords, recordsBytes_append]

theorem burstRecords_wellFormed (ts : timeval) (packets : List rte_mbuf)
    (hwhole : ∀ m ∈ packets,
      m.data_len = m.pkt_len ∧ m.pkt_len < 4294967296 ∧ m.pkt_len ≤ m.mem.length) :
    (∀ r ∈ burstRecords ts packets, r.WellFormed)
      ∧ (burstRecords ts packets).map Record.triple = packets.map rte_mbuf.triple := by
  induction packets with
  | nil => simp [burstRecords]
  | cons m ms ih =>
    obtain ⟨h1, h2, h3⟩ := hwhole m (List.mem_cons_self _ _)
    obtain ⟨ih1, ih2⟩ := ih (fun x hx => hwhole x (List.mem_cons_of_mem _ hx))
    have hlen : u32 m.pkt_len = m.pkt_len := Nat.mod_eq_of_lt h2
    have hcap : u32 m.data_len = m.pkt_len := by
      rw [h1]
      exact hlen
    refine ⟨?_, ?_⟩
    · intro r hr
      simp only [burstRecords, List.map_cons, List.mem_cons] at hr
      rcases hr with rfl | hr
      · refine ⟨u32OfInt_lt _, u32OfInt_lt _, u32_lt _, u32_lt _, ?_⟩
        simp only [packetHeader, hlen, hcap, List.length_take]
        omega
      · exact ih1 r hr
    · simp only [burstRecords, List.map_cons] at ih2 ⊢
      rw [ih2]
      simp [Record.triple, rte_mbuf.triple, rte_mbuf.captured, packetHeader, hlen, hcap, h1]

theorem allRecords_wellFormed (bursts : List Burst)
    (hwhole : ∀ m ∈ framesOf bursts,
      m.data_len = m.pkt_len ∧ m.pkt_len < 4294967296 ∧ m.pkt_len ≤ m.mem.length) :
    (∀ r ∈ allRecords bursts, r.WellFormed)
      ∧ (allRecords bursts).map Record.triple = (framesOf bursts).map rte_mbuf.triple := by
  induction bursts with
  | nil => simp [allRecords, framesOf]
  | cons b bs ih =>
    have hb := burstRecords_wellFormed b.ts b.packets
      (fun m hm => hwhole m (by simp [framesOf, hm]))
    have hbs := ih (fun m hm => hwhole m (by simp [framesOf, hm]))
    refine ⟨?_, ?_⟩
    · intro r hr
      simp only [allRecords, List.mem_append] at hr
      rcases hr with h | h
      · exact hb.1 r h
      · exact hbs.1 r h
    · simp [allRecords, framesOf, hb.2, hbs.2]

/-- The round trip holds for frames held whole by their first segment
(`data_len = pkt_len`): after a successful `openDump` and one `onReceive` per
burst, with every write stored, the file reads back as the global header and
one record per frame, in receive order, with the frames' captured bytes and
lengths and nothing left over. -/
theorem round_trip_of_whole_frames (creatable : Bool) (self : DPDKPort) (bursts : List Burst)
    (hopen : (openDump creatable true self).1 = true)
    (hstored : ∀ b ∈ bursts, ∀ k, b.stored k = true)
    (hwhole : ∀ m ∈ framesOf bursts,
      m.data_len = m.pkt_len ∧ m.pkt_len < 4294967296 ∧ m.pkt_len ≤ m.mem.length) :
    parseCapture (fileContent ((openDump creatable true self).2.2
        ++ (receiveAll (openDump creatable true self).2.1 bursts).2))
      = some (dumpFileHeader, allRecords bursts)
      ∧ (allRecords bursts).map Record.triple = (framesOf bursts).map rte_mbuf.triple := by
  obtain ⟨hwf, htriple⟩ := allRecords_wellFormed bursts hwhole
  refine ⟨?_, htriple⟩
  have hfile : (openDump creatable true self).2.1.file_.isSome = true := by
    rw [openDump_file, hopen]
  have hcontent : fileContent ((openDump creatable true self).2.2
      ++ (receiveAll (openDump creatable true self).2.1 bursts).2)
      = dumpFileHeader.bytes ++ recordsBytes (allRecords bursts) := by
    unfold fileContent
    have hin : ∀ m ∈ framesOf bursts, u32 m.pkt_len ≤ m.mem.length := by
      intro m hm
      obtain ⟨_, h2, h3⟩ := hwhole m hm
      rw [u32, Nat.mod_eq_of_lt h2]
      exact h3
    rw [List.foldl_append, foldl_fileStep_receiveAll _ hfile bursts hstored hin]
    congr 1
    unfold openDump at hopen ⊢
    cases hf : fopen creatable self.config_.out_file_path with
    | none => simp [hf] at hopen
    | some f => simp [fileStep]
  rw [hcontent]
  unfold parseCapture
  have h24 : dumpFileHeader.bytes.length = 24 := by decide
  rw [List.take_left' h24, List.drop_left' h24]
  have hdec : decodeFileHeader dumpFileHeader.bytes = some dumpFileHeader := by decide
  rw [hdec]
  simp only
  rw [parseRecords_recordsBytes _ hwf _ (by
    have := recordsBytes_length (allRecords bursts)
    simp only [List.length_append]
    omega)]
  rfl

/-- The round trip at one burst of two whole frames. -/
theorem round_trip_of_whole_frames_sample :
    parseCapture (fileContent ((openDump true true newPort).2.2
        ++ (receiveAll (openDump true true newPort).2.1
              [{ ts := ts0, stored := allStored, packets := [wholeFrame, wholeFrame] }]).2))
      = some (dumpFileHeader,
          allRecords [{ ts := ts0, stored := allStored, packets := [wholeFrame, wholeFrame] }]) :=
  (round_trip_of_whole_frames true newPort
    [{ ts := ts0, stored := allStored, packets := [wholeFrame, wholeFrame] }] (by decide)
    (by simp [allStored]) (by simp [framesOf, wholeFrame])).1


end DpdkDump
